import Mathlib

/-!
Verification of the ReCal core (`src/app/page.tsx`): relative-offset
resolution (`parseTimeDelay` / `getEventDates`) and calendar artifact
generation (`generateICS`, `downloadICS` filename, Google / Outlook deep
links, `updateRecents`).

Modelling conventions:

* JavaScript strings are Lean `String`s; character-level work happens on
  `String.data : List Char`.
* A JavaScript `Date` is its epoch-millisecond value (`JSDate.ms : Int`).
  The local wall-clock fields of a `Date` are obtained through a fixed
  timezone offset `tz` (minutes east of UTC); a fixed offset is the
  shallow embedding of the host's local clock (the spec rules out any
  timezone conversion beyond the local system clock).
* `date-fns` calendar arithmetic is reproduced with explicit Gregorian
  civil-calendar conversions: `addWeeks` adds `7·n` calendar days, which
  under a fixed offset is exactly `7·n·86400000` ms; `addMonths` performs
  calendar-month addition clamping the day-of-month to the target month's
  length; `addYears n` is `addMonths (12·n)`.
* `Date.prototype.toISOString` is modelled on its ECMA-262 definition for
  years 0–9999: `YYYY-MM-DDTHH:mm:ss.sssZ` over the UTC fields.
* The JavaScript regular expression `/(\d+)(\w+)/` is modelled by a
  leftmost match with a greedy, backtracking digit group followed by a
  greedy word group, exactly as the ECMA-262 backtracking engine runs it.
* `URLSearchParams.toString` serializes `k=v` pairs joined by `&` with
  `application/x-www-form-urlencoded` percent-encoding (`*-._` and
  alphanumerics kept, space to `+`, other characters UTF-8 percent-encoded
  with uppercase hex digits).
-/

namespace ReCal

/- ### Characters and digit strings -/

/-- JavaScript regex `\d` (ASCII decimal digit). -/
def isDigitChar (c : Char) : Bool := '0' ≤ c && c ≤ '9'

/-- JavaScript regex `\w` (ASCII word character). -/
def isWordChar (c : Char) : Bool :=
  ('a' ≤ c && c ≤ 'z') || ('A' ≤ c && c ≤ 'Z') || isDigitChar c || c == '_'

/-- Numeric value of a decimal digit character. -/
def digitVal (c : Char) : Nat := c.toNat - 48

/-- Value of a decimal digit string; JavaScript `parseInt` restricted to the
all-digit strings produced by the group `(\d+)`. -/
def digitsToNat (l : List Char) : Nat := l.foldl (fun a c => 10 * a + digitVal c) 0

/-- Fuel-driven digit extraction (structural recursion on the fuel, so that
it evaluates by kernel reduction). -/
def natDigitsF : Nat → Nat → List Char
  | _, 0 => []
  | 0, _+1 => []
  | fuel+1, n+1 => natDigitsF fuel ((n+1) / 10) ++ [Nat.digitChar ((n+1) % 10)]

/-- Decimal digits of `n`, most significant first (empty for `0`). -/
def natDigits (n : Nat) : List Char := natDigitsF n n

/-- JavaScript `String(n)` for a nonnegative number. -/
def jsString (n : Nat) : String := if n = 0 then "0" else String.mk (natDigits n)

/-- JavaScript `String(i)` for an integer. -/
def jsStringInt (i : Int) : String :=
  if i < 0 then "-" ++ jsString (-i).toNat else jsString i.toNat

/-- JavaScript `String.prototype.padStart(n, c)`. -/
def padStart (s : String) (n : Nat) (c : Char) : String :=
  String.mk (List.replicate (n - s.length) c ++ s.data)

/- ### The regular expression `/(\d+)(\w+)/` -/

/-- Backtracking of the greedy group `(\d+)`: group 1 takes the first `j`
characters (all digits by construction), group 2 greedily takes word
characters right after; on failure the digit group gives one character
back, down to a single digit. -/
def backtrackSplit (l : List Char) : Nat → Option (List Char × List Char)
  | 0 => none
  | j+1 =>
    let g2 := (l.drop (j+1)).takeWhile isWordChar
    if g2.isEmpty then backtrackSplit l j
    else some (l.take (j+1), g2)

/-- Attempt to match `(\d+)(\w+)` at the start of `l`: the digit group
starts greedy (the maximal digit run) and backtracks. -/
def tryMatchAt (l : List Char) : Option (List Char × List Char) :=
  backtrackSplit l (l.takeWhile isDigitChar).length

/-- Leftmost (unanchored) match of `/(\d+)(\w+)/`, as `String.prototype.match`
finds it: try each start position left to right. -/
def findMatch : List Char → Option (List Char × List Char)
  | [] => none
  | c :: r =>
    match tryMatchAt (c :: r) with
    | some g => some g
    | none => findMatch r

/- ### Form data and offset parsing -/

/-- The validated form record handed to the core.  The source's optional
`content` (`data.content || ""`) is modelled as a `String` where the empty
string stands for an absent body. -/
structure FormData where
  title : String
  content : String
  timeDelay : String
deriving DecidableEq

/-- Source `parseTimeDelay` (also inlined verbatim inside `getEventDates`):
`td.match(/(\d+)(\w+)/)`, `parseInt(m[1])` with fallback `(1, "weeks")` on
no match. -/
def parseTimeDelay (td : String) : Nat × String :=
  match findMatch td.data with
  | some g => (digitsToNat g.1, String.mk g.2)
  | none => (1, "weeks")

/- ### Dates -/

/-- A JavaScript `Date`: epoch milliseconds. -/
structure JSDate where
  ms : Int
deriving DecidableEq

/-- Local (or UTC) wall-clock fields of an instant. -/
structure Civil where
  year : Int
  month : Nat
  day : Nat
  hour : Nat
  minute : Nat
  second : Nat
  msec : Nat
deriving DecidableEq

/-- Days-since-epoch to Gregorian `(year, month, day)` (Howard Hinnant's
`civil_from_days` algorithm, the standard proleptic-Gregorian conversion). -/
def civilFromDays (z0 : Int) : Int × Nat × Nat :=
  let z := z0 + 719468
  let doe := (z.emod 146097).toNat
  let era := z.ediv 146097
  let yoe := (doe - doe / 1460 + doe / 36524 - doe / 146096) / 365
  let doy := doe - (365 * yoe + yoe / 4 - yoe / 100)
  let mp := (5 * doy + 2) / 153
  let d := doy - (153 * mp + 2) / 5 + 1
  let m := if mp < 10 then mp + 3 else mp - 9
  ((yoe : Int) + era * 400 + (if m ≤ 2 then 1 else 0), m, d)

/-- Gregorian `(year, month, day)` to days since epoch (Hinnant's
`days_from_civil`). -/
def daysFromCivil (y : Int) (m : Nat) (d : Nat) : Int :=
  let y' := y - (if m ≤ 2 then 1 else 0)
  let era := y'.ediv 400
  let yoe := (y'.emod 400).toNat
  let mp := (m + 9) % 12
  let doy := (153 * mp + 2) / 5 + d - 1
  let doe := yoe * 365 + yoe / 4 - yoe / 100 + doy
  era * 146097 + (doe : Int) - 719468

/-- Wall-clock fields of an instant, given the instant already shifted into
the desired frame (UTC fields when applied to `ms` itself). -/
def civilFromMs (t : Int) : Civil :=
  let msod := (t.emod 86400000).toNat
  let ymd := civilFromDays (t.ediv 86400000)
  { year := ymd.1, month := ymd.2.1, day := ymd.2.2,
    hour := msod / 3600000, minute := msod / 60000 % 60,
    second := msod / 1000 % 60, msec := msod % 1000 }

/-- Local wall-clock fields (`getFullYear`, `getMonth()+1`, `getDate`,
`getHours`, `getMinutes`, `getSeconds`, `getMilliseconds`) under the fixed
offset `tz` in minutes. -/
def localCivil (tz : Int) (d : JSDate) : Civil := civilFromMs (d.ms + tz * 60000)

/-- UTC wall-clock fields (`getUTCFullYear`, ...). -/
def utcCivil (d : JSDate) : Civil := civilFromMs d.ms

/-- Milliseconds within the day of a civil time. -/
def msOfDayOf (c : Civil) : Int :=
  (c.hour : Int) * 3600000 + (c.minute : Int) * 60000 + (c.second : Int) * 1000 + (c.msec : Int)

/-- Instant of a local civil time under the fixed offset `tz`. -/
def msFromCivil (tz : Int) (c : Civil) : Int :=
  daysFromCivil c.year c.month c.day * 86400000 + msOfDayOf c - tz * 60000

/-- Leap-year test of the Gregorian calendar. -/
def isLeapYear (y : Int) : Bool := (y.emod 4 == 0 && y.emod 100 != 0) || y.emod 400 == 0

/-- Number of days in a month. -/
def daysInMonth (y : Int) (m : Nat) : Nat :=
  if m = 2 then (if isLeapYear y then 29 else 28)
  else if m = 4 ∨ m = 6 ∨ m = 9 ∨ m = 11 then 30 else 31

/-- date-fns `addWeeks`: adds `7·n` calendar days preserving the local
wall-clock time, which under a fixed timezone offset is exactly
`7·n·86400000` milliseconds. -/
def addWeeks (d : JSDate) (n : Nat) : JSDate := ⟨d.ms + (n : Int) * 7 * 86400000⟩

/-- date-fns `addMonths`: calendar-month addition that clamps the
day-of-month to the length of the target month (Jan 31 + 1 month is the
last day of February). -/
def addMonths (tz : Int) (d : JSDate) (n : Nat) : JSDate :=
  let c := localCivil tz d
  let total : Int := c.year * 12 + (c.month : Int) - 1 + (n : Int)
  let y := total.ediv 12
  let m := (total.emod 12).toNat + 1
  ⟨msFromCivil tz { c with year := y, month := m, day := min c.day (daysInMonth y m) }⟩

/-- date-fns `addYears`: `addMonths` with `12·n`. -/
def addYears (tz : Int) (d : JSDate) (n : Nat) : JSDate := addMonths tz d (12 * n)

/-- One entry of the source's `units` table (`value` plus the arithmetic
closure `fn`, anchored at the current instant). -/
structure UnitEntry where
  value : String
  fn : Nat → JSDate

/-- The source's `units` table. -/
def units (tz : Int) (now : JSDate) : List UnitEntry :=
  [⟨"weeks", fun num => addWeeks now num⟩,
   ⟨"months", fun num => addMonths tz now num⟩,
   ⟨"years", fun num => addYears tz now num⟩]

/-- Source `getEventDates`: parse the delay, look the unit up in `units`,
fall back to `addWeeks(now, 1)`, and set the end 30 minutes after the
start. -/
def getEventDates (tz : Int) (now : JSDate) (data : FormData) : JSDate × JSDate :=
  let p := parseTimeDelay data.timeDelay
  let su := (units tz now).find? (fun u => u.value == p.2)
  let startDate := match su with
    | some u => u.fn p.1
    | none => addWeeks now 1
  (startDate, ⟨startDate.ms + 30 * 60000⟩)

/- ### Serialization helpers -/

/-- Source `formatDate` inside `generateICS`: unpadded `getFullYear`, then
`getMonth()+1`, `getDate`, `getHours`, `getMinutes`, `getSeconds`, each
`String(x).padStart(2, "0")`, with a literal `T` between date and time.
`Civil.month` is already the 1-based `getMonth()+1`. -/
def formatDate (c : Civil) : String :=
  jsStringInt c.year ++ padStart (jsString c.month) 2 '0' ++ padStart (jsString c.day) 2 '0'
    ++ "T" ++ padStart (jsString c.hour) 2 '0' ++ padStart (jsString c.minute) 2 '0'
    ++ padStart (jsString c.second) 2 '0'

/-- `Date.prototype.toISOString` (ECMA-262, years 0–9999):
`YYYY-MM-DDTHH:mm:ss.sssZ` over the UTC fields. -/
def toISOString (d : JSDate) : String :=
  let c := utcCivil d
  padStart (jsStringInt c.year) 4 '0' ++ "-" ++ padStart (jsString c.month) 2 '0' ++ "-"
    ++ padStart (jsString c.day) 2 '0' ++ "T" ++ padStart (jsString c.hour) 2 '0' ++ ":"
    ++ padStart (jsString c.minute) 2 '0' ++ ":" ++ padStart (jsString c.second) 2 '0'
    ++ "." ++ padStart (jsString c.msec) 3 '0' ++ "Z"

/-- `.replace(/[-:]/g, "")`: removes every `-` and `:`. -/
def stripDashColon (s : String) : String :=
  String.mk (s.data.filter (fun c => !(c == '-' || c == ':')))

/-- Tests whether a list starts with three decimal digits. -/
def startsThreeDigits : List Char → Bool
  | a :: b :: c :: _ => isDigitChar a && isDigitChar b && isDigitChar c
  | _ => false

/-- `.replace(/\.\d{3}/, "")` (non-global): removes the first occurrence of
a dot followed by three digits. -/
def removeDot3 : List Char → List Char
  | [] => []
  | c :: r => if c = '.' ∧ startsThreeDigits r then r.drop 3 else c :: removeDot3 r

/-- `d.toISOString().replace(/[-:]/g, "").replace(/\.\d{3}/, "")` — the
serialization used both for `DTSTAMP` and for the Google Calendar dates. -/
def isoCompact (d : JSDate) : String :=
  String.mk (removeDot3 (stripDashColon (toISOString d)).data)

/-- `.replace(/\n/g, "\\n")` on the body: each newline becomes the
two-character sequence backslash + `n`. -/
def escapeNewlines : List Char → List Char
  | [] => []
  | c :: r => if c = '\n' then '\\' :: 'n' :: escapeNewlines r else c :: escapeNewlines r

/-- Inverse reader of the body escape: each backslash + `n` pair becomes a
newline again (leftmost first). -/
def unescapeNewlines : List Char → List Char
  | [] => []
  | [c] => [c]
  | c :: d :: r =>
    if c = '\\' ∧ d = 'n' then '\n' :: unescapeNewlines r
    else c :: unescapeNewlines (d :: r)

/-- JavaScript `Array.prototype.join(sep)`. -/
def joinStr (sep : String) : List String → String
  | [] => ""
  | [s] => s
  | s :: ss => s ++ sep ++ joinStr sep ss

/-- Character-list version of `joinStr`, used in proofs. -/
def joinData (sep : List Char) : List (List Char) → List Char
  | [] => []
  | [s] => s
  | s :: ss => s ++ sep ++ joinData sep ss

/- ### The `.ics` document -/

/-- The 14 record lines of `generateICS`, in order.  The `uid` is
`Date.now()` (the anchor instant's milliseconds) plus the fixed domain
suffix; `dtstamp` is the compacted ISO string of the anchor instant. -/
def icsLines (tz : Int) (now : JSDate) (data : FormData) : List String :=
  ["BEGIN:VCALENDAR",
   "VERSION:2.0",
   "PRODID:-//ReCal//ReCal 1.0//EN",
   "CALSCALE:GREGORIAN",
   "METHOD:PUBLISH",
   "BEGIN:VEVENT",
   "UID:" ++ jsStringInt now.ms ++ "@recal.app",
   "DTSTAMP:" ++ isoCompact now,
   "DTSTART:" ++ formatDate (localCivil tz (getEventDates tz now data).1),
   "DTEND:" ++ formatDate (localCivil tz (getEventDates tz now data).2),
   "SUMMARY:" ++ data.title,
   "DESCRIPTION:" ++ String.mk (escapeNewlines data.content.data),
   "END:VEVENT",
   "END:VCALENDAR"]

/-- Source `generateICS`: the record lines joined with `"\r\n"`. -/
def generateICS (tz : Int) (now : JSDate) (data : FormData) : String :=
  joinStr "\r\n" (icsLines tz now data)

/-- The filename slug's character class `[a-z0-9]`. -/
def isSlugKeep (c : Char) : Bool := ('a' ≤ c && c ≤ 'z') || ('0' ≤ c && c ≤ '9')

/-- `.replace(/[^a-z0-9]+/g, "-")`: every maximal run of characters outside
`[a-z0-9]` becomes a single hyphen. -/
def collapseRuns : List Char → List Char
  | [] => []
  | [c] => if isSlugKeep c then [c] else ['-']
  | c :: d :: r =>
    if isSlugKeep c then c :: collapseRuns (d :: r)
    else if isSlugKeep d then '-' :: collapseRuns (d :: r)
    else collapseRuns (d :: r)

/-- `.replace(/(^-|-$)/g, "")`: one leading and one trailing hyphen are
removed (`^` only matches at index 0, `$` only at the end). -/
def stripEdges (l : List Char) : List Char :=
  let l1 := if l.head? = some '-' then l.tail else l
  if l1.getLast? = some '-' then l1.dropLast else l1

/-- The filename slug from `downloadICS`:
`title.toLowerCase().slice(0, 30).replace(/[^a-z0-9]+/g, "-").replace(/(^-|-$)/g, "")`.
`toLowerCase` is modelled by the ASCII `Char.toLower`. -/
def slugify (title : String) : String :=
  String.mk (stripEdges (collapseRuns ((title.data.map Char.toLower).take 30)))

/-- The suggested download filename from `downloadICS`. -/
def downloadFileName (data : FormData) : String :=
  "recal-" ++ slugify data.title ++ ".ics"

/-- Source `updateRecents`:
`[timeDelay, ...prev.filter(v => v !== timeDelay)].slice(0, 3)`. -/
def updateRecents (timeDelay : String) (prev : List String) : List String :=
  (timeDelay :: prev.filter (fun v => v != timeDelay)).take 3

/- ### Deep links -/

/-- Characters `application/x-www-form-urlencoded` leaves unescaped. -/
def formSafeChar (c : Char) : Bool :=
  ('A' ≤ c && c ≤ 'Z') || ('a' ≤ c && c ≤ 'z') || ('0' ≤ c && c ≤ '9') ||
  c == '*' || c == '-' || c == '.' || c == '_'

/-- Uppercase hexadecimal digit. -/
def hexUpper (n : Nat) : Char :=
  ['0', '1', '2', '3', '4', '5', '6', '7', '8', '9', 'A', 'B', 'C', 'D', 'E', 'F'].getD n 'F'

/-- UTF-8 bytes of a character (as numbers below 256). -/
def utf8Bytes (c : Char) : List Nat :=
  let n := c.toNat
  if n < 128 then [n]
  else if n < 2048 then [192 + n / 64, 128 + n % 64]
  else if n < 65536 then [224 + n / 4096, 128 + n / 64 % 64, 128 + n % 64]
  else [240 + n / 262144, 128 + n / 4096 % 64, 128 + n / 64 % 64, 128 + n % 64]

/-- Percent-encoding of one byte, uppercase hex. -/
def percentByte (b : Nat) : List Char := ['%', hexUpper (b / 16), hexUpper (b % 16)]

/-- `application/x-www-form-urlencoded` encoding of one character. -/
def formEncodeChar (c : Char) : List Char :=
  if formSafeChar c then [c]
  else if c = ' ' then ['+']
  else (utf8Bytes c).flatMap percentByte

/-- `application/x-www-form-urlencoded` encoding of a string. -/
def formEncode (s : String) : String := String.mk (s.data.flatMap formEncodeChar)

/-- `new URLSearchParams({...}).toString()`: `k=v` pairs in insertion
order, joined by `&`, keys and values form-encoded. -/
def urlSearchParams (ps : List (String × String)) : String :=
  joinStr "&" (ps.map (fun p => formEncode p.1 ++ "=" ++ formEncode p.2))

/-- Source `addToGoogleCalendar`, up to the produced URL (the navigation
side effect is outside the core). -/
def addToGoogleCalendarUrl (tz : Int) (now : JSDate) (data : FormData) : String :=
  "https://calendar.google.com/calendar/render?" ++
    urlSearchParams
      [("action", "TEMPLATE"),
       ("text", data.title),
       ("dates", isoCompact (getEventDates tz now data).1 ++ "/"
         ++ isoCompact (getEventDates tz now data).2),
       ("details", data.content),
       ("trp", "false")]

/-- `formatOutlookDate`: `date.toISOString().slice(0, 19)`. -/
def formatOutlookDate (d : JSDate) : String := String.mk ((toISOString d).data.take 19)

/-- Source `addToOutlook`, up to the produced URL (`urls[0]`, the
outlook.live.com variant the code opens). -/
def addToOutlookUrl (tz : Int) (now : JSDate) (data : FormData) : String :=
  "https://outlook.live.com/calendar/deeplink/compose?" ++
    urlSearchParams
      [("path", "/calendar/action/compose"),
       ("rru", "addevent"),
       ("startdt", formatOutlookDate (getEventDates tz now data).1),
       ("enddt", formatOutlookDate (getEventDates tz now data).2),
       ("subject", data.title),
       ("body", data.content)]

/- ### Spec-side definitions (for refinement comparisons) -/

/-- Modelled from the spec's words: basic format `YYYYMMDDTHHMMSS`
(4-digit year, zero-padded two-digit components, literal `T`). -/
def specBasic (c : Civil) : String :=
  padStart (jsStringInt c.year) 4 '0' ++ padStart (jsString c.month) 2 '0'
    ++ padStart (jsString c.day) 2 '0' ++ "T" ++ padStart (jsString c.hour) 2 '0'
    ++ padStart (jsString c.minute) 2 '0' ++ padStart (jsString c.second) 2 '0'

/-- Modelled from the spec's words: extended format `YYYY-MM-DDTHH:MM:SS`
(second precision, no `Z`). -/
def specExtended (c : Civil) : String :=
  padStart (jsStringInt c.year) 4 '0' ++ "-" ++ padStart (jsString c.month) 2 '0' ++ "-"
    ++ padStart (jsString c.day) 2 '0' ++ "T" ++ padStart (jsString c.hour) 2 '0' ++ ":"
    ++ padStart (jsString c.minute) 2 '0' ++ ":" ++ padStart (jsString c.second) 2 '0'

/-- Well-formedness of a serialized civil time: the year prints as four
digits and every other component as at most two. -/
def ValidC (c : Civil) : Prop :=
  1000 ≤ c.year ∧ c.year ≤ 9999 ∧ c.month ≤ 99 ∧ c.day ≤ 99 ∧
    c.hour ≤ 99 ∧ c.minute ≤ 99 ∧ c.second ≤ 99

instance (c : Civil) : Decidable (ValidC c) := by
  unfold ValidC
  infer_instance

/-- The six fields of the second-precision local representation. -/
def Civil.ymdhms (c : Civil) : Int × Nat × Nat × Nat × Nat × Nat :=
  (c.year, c.month, c.day, c.hour, c.minute, c.second)

/- ### Reader of the generated document (for the round-trip property) -/

/-- Whether `pat` occurs at the start of `l`. -/
def leadsWith : List Char → List Char → Bool
  | [], _ => true
  | _ :: _, [] => false
  | a :: as, b :: bs => a == b && leadsWith as bs

/-- Whether the adjacent pair `a, b` occurs somewhere in the list. -/
def hasPair (a b : Char) : List Char → Bool
  | [] => false
  | [_] => false
  | c :: d :: r => (c = a && d = b) || hasPair a b (d :: r)

/-- Whether `pat` occurs at the end of `l`. -/
def endsWithSeq (pat l : List Char) : Bool := leadsWith pat.reverse l.reverse

/-- Split on the exact two-character sequence CR LF. -/
def splitCRLF : List Char → List (List Char)
  | [] => [[]]
  | [c] => [[c]]
  | c :: d :: r =>
    if c = '\r' ∧ d = '\n' then [] :: splitCRLF r
    else
      match splitCRLF (d :: r) with
      | [] => [[c]]
      | l :: ls => (c :: l) :: ls

/-- First content line carrying the given property name: split the document
on CRLF, find the first line starting with `name`, return the rest of that
line. -/
def fieldOf (doc : String) (name : String) : Option (List Char) :=
  ((splitCRLF doc.data).find? (fun l => leadsWith name.data l)).map
    (fun l => l.drop name.data.length)

/-- Parsed `SUMMARY` property. -/
def parsedSummary (doc : String) : Option String := (fieldOf doc "SUMMARY:").map String.mk

/-- Parsed `DESCRIPTION` property, with the newline escapes undone. -/
def parsedDescription (doc : String) : Option String :=
  (fieldOf doc "DESCRIPTION:").map (fun l => String.mk (unescapeNewlines l))

/-- Reader of the basic local-time format `YYYYMMDDTHHMMSS`. -/
def parseBasicTime : List Char → Option (Int × Nat × Nat × Nat × Nat × Nat)
  | [y1, y2, y3, y4, a1, a2, b1, b2, t, h1, h2, i1, i2, s1, s2] =>
    if t = 'T' ∧ [y1, y2, y3, y4, a1, a2, b1, b2, h1, h2, i1, i2, s1, s2].all isDigitChar then
      some ((digitsToNat [y1, y2, y3, y4] : Int), digitsToNat [a1, a2], digitsToNat [b1, b2],
        digitsToNat [h1, h2], digitsToNat [i1, i2], digitsToNat [s1, s2])
    else none
  | _ => none

/-- Parsed `DTSTART` property. -/
def parsedDtstart (doc : String) : Option (Int × Nat × Nat × Nat × Nat × Nat) :=
  (fieldOf doc "DTSTART:").bind parseBasicTime

/-- Parsed `DTEND` property. -/
def parsedDtend (doc : String) : Option (Int × Nat × Nat × Nat × Nat × Nat) :=
  (fieldOf doc "DTEND:").bind parseBasicTime

/-- The character set a serialized query string may use. -/
def querySafeChar (c : Char) : Bool :=
  formSafeChar c || c == '%' || c == '+' || c == '=' || c == '&'

/-- Modelled from the spec's words: the record lines with `DTSTAMP` in UTC
basic format with a trailing `Z` and `DTSTART`/`DTEND` in floating local
basic format built directly from the local wall-clock fields. -/
def specIcsLines (tz : Int) (now : JSDate) (data : FormData) : List String :=
  ["BEGIN:VCALENDAR",
   "VERSION:2.0",
   "PRODID:-//ReCal//ReCal 1.0//EN",
   "CALSCALE:GREGORIAN",
   "METHOD:PUBLISH",
   "BEGIN:VEVENT",
   "UID:" ++ jsStringInt now.ms ++ "@recal.app",
   "DTSTAMP:" ++ specBasic (utcCivil now) ++ "Z",
   "DTSTART:" ++ specBasic (localCivil tz (getEventDates tz now data).1),
   "DTEND:" ++ specBasic (localCivil tz (getEventDates tz now data).2),
   "SUMMARY:" ++ data.title,
   "DESCRIPTION:" ++ String.mk (escapeNewlines data.content.data),
   "END:VEVENT",
   "END:VCALENDAR"]

/-- Modelled from the spec's words: the Google Calendar query parameters,
with the dates parameter as two absolute UTC basic timestamps with
trailing `Z` separated by a slash. -/
def specGoogleParams (tz : Int) (now : JSDate) (data : FormData) : List (String × String) :=
  [("action", "TEMPLATE"),
   ("text", data.title),
   ("dates", specBasic (utcCivil (getEventDates tz now data).1) ++ "Z" ++ "/"
     ++ (specBasic (utcCivil (getEventDates tz now data).2) ++ "Z")),
   ("details", data.content),
   ("trp", "false")]

/-- Modelled from the spec's words: the Outlook compose query parameters,
with start/end as UTC timestamps truncated to second precision in extended
format and no `Z`. -/
def specOutlookParams (tz : Int) (now : JSDate) (data : FormData) : List (String × String) :=
  [("path", "/calendar/action/compose"),
   ("rru", "addevent"),
   ("startdt", specExtended (utcCivil (getEventDates tz now data).1)),
   ("enddt", specExtended (utcCivil (getEventDates tz now data).2)),
   ("subject", data.title),
   ("body", data.content)]

/- ### Digit-string lemmas -/

theorem natDigitsF_fuel (n : Nat) : ∀ fuel1 fuel2, n ≤ fuel1 → n ≤ fuel2 →
    natDigitsF fuel1 n = natDigitsF fuel2 n := by
  induction n using Nat.strong_induction_on with
  | _ n ih =>
    intro fuel1 fuel2 h1 h2
    match n, fuel1, fuel2, h1, h2 with
    | 0, f1, f2, _, _ =>
      cases f1 <;> cases f2 <;> rfl
    | m + 1, f1 + 1, f2 + 1, _, _ =>
      show natDigitsF f1 ((m + 1) / 10) ++ _ = natDigitsF f2 ((m + 1) / 10) ++ _
      rw [ih ((m + 1) / 10) (Nat.div_lt_self (Nat.succ_pos m) (by norm_num)) f1 f2
        (by omega) (by omega)]

theorem natDigits_succ (n : Nat) :
    natDigits (n + 1) = natDigits ((n + 1) / 10) ++ [Nat.digitChar ((n + 1) % 10)] := by
  show natDigitsF n ((n + 1) / 10) ++ _ = natDigitsF ((n + 1) / 10) ((n + 1) / 10) ++ _
  rw [natDigitsF_fuel ((n + 1) / 10) n ((n + 1) / 10) (by omega) (by omega)]

theorem digitVal_digitChar {m : Nat} (h : m < 10) : digitVal (Nat.digitChar m) = m := by
  interval_cases m <;> rfl

theorem isDigitChar_digitChar {m : Nat} (h : m < 10) : isDigitChar (Nat.digitChar m) = true := by
  interval_cases m <;> decide

theorem natDigits_digit (n : Nat) : ∀ c ∈ natDigits n, isDigitChar c = true := by
  induction n using Nat.strong_induction_on with
  | _ n ih =>
    match n with
    | 0 => simp [natDigits, natDigitsF]
    | m + 1 =>
      intro c hc
      rw [natDigits_succ] at hc
      rcases List.mem_append.1 hc with h | h
      · exact ih _ (Nat.div_lt_self (Nat.succ_pos m) (by norm_num)) c h
      · rw [List.mem_singleton.1 h]
        exact isDigitChar_digitChar (Nat.mod_lt _ (by norm_num))

theorem digitsToNat_append_one (l : List Char) (c : Char) :
    digitsToNat (l ++ [c]) = 10 * digitsToNat l + digitVal c := by
  simp [digitsToNat, List.foldl_append]

theorem digitsToNat_natDigits (n : Nat) : digitsToNat (natDigits n) = n := by
  induction n using Nat.strong_induction_on with
  | _ n ih =>
    match n with
    | 0 => simp [natDigits, natDigitsF, digitsToNat]
    | m + 1 =>
      rw [natDigits_succ, digitsToNat_append_one,
        ih _ (Nat.div_lt_self (Nat.succ_pos m) (by norm_num)),
        digitVal_digitChar (Nat.mod_lt _ (by norm_num))]
      omega

theorem digitsToNat_cons_zero (l : List Char) : digitsToNat ('0' :: l) = digitsToNat l := by
  have h : digitVal '0' = 0 := rfl
  simp only [digitsToNat, List.foldl_cons, h]

theorem digitsToNat_replicate_zero (k : Nat) (l : List Char) :
    digitsToNat (List.replicate k '0' ++ l) = digitsToNat l := by
  induction k with
  | zero => rfl
  | succ k ih => rw [List.replicate_succ, List.cons_append, digitsToNat_cons_zero, ih]

theorem natDigits_length_succ (n : Nat) (h : 1 ≤ n) :
    (natDigits n).length = (natDigits (n / 10)).length + 1 := by
  match n, h with
  | m + 1, _ => rw [natDigits_succ]; simp

theorem natDigits_length_le (k : Nat) : ∀ m : Nat, m < 10 ^ k → (natDigits m).length ≤ k := by
  induction k with
  | zero => intro m hm; interval_cases m; simp [natDigits, natDigitsF]
  | succ k ih =>
    intro m hm
    match m with
    | 0 => simp [natDigits, natDigitsF]
    | m + 1 =>
      rw [natDigits_length_succ (m + 1) (by omega)]
      have h10 : 10 ^ (k + 1) = 10 * 10 ^ k := by ring
      have : (m + 1) / 10 < 10 ^ k := by omega
      have := ih _ this
      omega

theorem natDigits_length_ge (k : Nat) : ∀ m : Nat, 10 ^ k ≤ m → k + 1 ≤ (natDigits m).length := by
  induction k with
  | zero =>
    intro m hm
    have h1 : 1 ≤ m := by simpa using hm
    have := natDigits_length_succ m h1
    omega
  | succ k ih =>
    intro m hm
    have h10 : 10 ^ (k + 1) = 10 * 10 ^ k := by ring
    have hp : 0 < 10 ^ k := Nat.pos_pow_of_pos k (by norm_num)
    have hm1 : 1 ≤ m := by omega
    rw [natDigits_length_succ _ hm1]
    have hdiv : 10 ^ k ≤ m / 10 := by omega
    have := ih _ hdiv
    omega

theorem jsString_data_digit (n : Nat) : ∀ c ∈ (jsString n).data, isDigitChar c = true := by
  unfold jsString
  split
  · intro c hc
    simp only [String.data] at hc
    simp at hc
    subst hc
    decide
  · exact natDigits_digit n

theorem jsString_value (n : Nat) : digitsToNat (jsString n).data = n := by
  unfold jsString
  split
  · rename_i h; subst h; rfl
  · exact digitsToNat_natDigits n

theorem padStart_data (s : String) (n : Nat) (c : Char) :
    (padStart s n c).data = List.replicate (n - s.length) c ++ s.data := rfl

theorem jsString_length_le (k : Nat) (m : Nat) (hk : 1 ≤ k) (h : m < 10 ^ k) :
    (jsString m).length ≤ k := by
  unfold jsString
  split
  · exact hk
  · exact natDigits_length_le k m h

theorem padDigits_shape (m k : Nat) (hk : 1 ≤ k) (hm : m < 10 ^ k) :
    ((padStart (jsString m) k '0').data).length = k ∧
    (∀ c ∈ (padStart (jsString m) k '0').data, isDigitChar c = true) ∧
    digitsToNat (padStart (jsString m) k '0').data = m := by
  refine ⟨?_, ?_, ?_⟩
  · rw [padStart_data, List.length_append, List.length_replicate]
    have h1 := jsString_length_le k m hk hm
    have h2 : (jsString m).data.length = (jsString m).length := rfl
    omega
  · intro c hc
    rw [padStart_data] at hc
    rcases List.mem_append.1 hc with h | h
    · rw [List.eq_of_mem_replicate h]; decide
    · exact jsString_data_digit m c h
  · rw [padStart_data, digitsToNat_replicate_zero, jsString_value]

theorem jsStringInt_nonneg (y : Int) (h : 0 ≤ y) : jsStringInt y = jsString y.toNat := by
  unfold jsStringInt
  rw [if_neg (by omega)]

theorem jsStringInt_four (y : Int) (h1 : 1000 ≤ y) (h2 : y ≤ 9999) :
    padStart (jsStringInt y) 4 '0' = jsStringInt y := by
  rw [jsStringInt_nonneg y (by omega)]
  have hge : 4 ≤ (jsString y.toNat).length := by
    unfold jsString
    rw [if_neg (by omega)]
    show 4 ≤ (natDigits y.toNat).length
    exact natDigits_length_ge 3 _ (by omega)
  unfold padStart
  rw [Nat.sub_eq_zero_of_le hge, List.replicate_zero, List.nil_append]

theorem formatDate_eq_specBasic (c : Civil) (h1 : 1000 ≤ c.year) (h2 : c.year ≤ 9999) :
    formatDate c = specBasic c := by
  unfold formatDate specBasic
  rw [jsStringInt_four c.year h1 h2]

/- ### C1 -/

/-- C1: for every form record (any title, content and timeDelay token) and
any anchor instant, the resolved event satisfies
`end = start + 30 minutes = start + 1,800,000 ms`; the duration is fixed by
`getEventDates` independently of the token's count or unit. -/
theorem c1_fixed_duration (tz : Int) (now : JSDate) (data : FormData) :
    ((getEventDates tz now data).2).ms = ((getEventDates tz now data).1).ms + 1800000 := rfl

/- ### C2 -/

/-- C2: offset resolution falls back to `now + 1 week` in exactly two
cases — no match of `(\d+)(\w+)` in the token (e.g. "garbage", which
resolves like the explicit token "1weeks"), or a matched unit outside
{weeks, months, years}; with a recognized unit the matched count and unit
function are used. -/
theorem c2_fallback_cases (tz : Int) (now : JSDate) (data : FormData) :
    (findMatch data.timeDelay.data = none →
      getEventDates tz now data = getEventDates tz now ⟨data.title, data.content, "1weeks"⟩) ∧
    (∀ g1 g2, findMatch data.timeDelay.data = some (g1, g2) →
      String.mk g2 ≠ "weeks" → String.mk g2 ≠ "months" → String.mk g2 ≠ "years" →
      getEventDates tz now data = getEventDates tz now ⟨data.title, data.content, "1weeks"⟩) ∧
    (∀ g1 g2, findMatch data.timeDelay.data = some (g1, g2) →
      (String.mk g2 = "weeks" →
        (getEventDates tz now data).1 = addWeeks now (digitsToNat g1)) ∧
      (String.mk g2 = "months" →
        (getEventDates tz now data).1 = addMonths tz now (digitsToNat g1)) ∧
      (String.mk g2 = "years" →
        (getEventDates tz now data).1 = addYears tz now (digitsToNat g1))) := by
  have hq : parseTimeDelay "1weeks" = (1, "weeks") := rfl
  refine ⟨?_, ?_, ?_⟩
  · intro h
    have hp : parseTimeDelay data.timeDelay = (1, "weeks") := by
      unfold parseTimeDelay; rw [h]
    simp only [getEventDates, hp, hq]
  · intro g1 g2 h hw hm hy
    have hp : parseTimeDelay data.timeDelay = (digitsToNat g1, String.mk g2) := by
      unfold parseTimeDelay; rw [h]
    have e1 : (("weeks" : String) == String.mk g2) = false := beq_eq_false_iff_ne.mpr (Ne.symm hw)
    have e2 : (("months" : String) == String.mk g2) = false := beq_eq_false_iff_ne.mpr (Ne.symm hm)
    have e3 : (("years" : String) == String.mk g2) = false := beq_eq_false_iff_ne.mpr (Ne.symm hy)
    simp only [getEventDates, hp, hq, units, List.find?, e1, e2, e3]
    rfl
  · intro g1 g2 h
    have hp : parseTimeDelay data.timeDelay = (digitsToNat g1, String.mk g2) := by
      unfold parseTimeDelay; rw [h]
    refine ⟨fun he => ?_, fun he => ?_, fun he => ?_⟩ <;>
      rw [he] at hp <;> simp only [getEventDates, hp] <;> rfl

/-- Witness for C2 at the concrete tokens "garbage" (no match at all) and
"5days" (a match whose unit is unrecognized). -/
theorem c2_fallback_cases_witness :
    getEventDates 0 ⟨1700000000000⟩ ⟨"t", "c", "garbage"⟩ =
      getEventDates 0 ⟨1700000000000⟩ ⟨"t", "c", "1weeks"⟩ ∧
    getEventDates 0 ⟨1700000000000⟩ ⟨"t", "c", "5days"⟩ =
      getEventDates 0 ⟨1700000000000⟩ ⟨"t", "c", "1weeks"⟩ := by
  constructor
  · exact (c2_fallback_cases 0 ⟨1700000000000⟩ ⟨"t", "c", "garbage"⟩).1 rfl
  · exact (c2_fallback_cases 0 ⟨1700000000000⟩ ⟨"t", "c", "5days"⟩).2.1
      ['5'] ['d', 'a', 'y', 's'] rfl (by decide) (by decide) (by decide)

/- ### C5 -/

/-- C5: after any successful artifact-generation action with token `t`,
the recents list is `t` prepended to the previous list with prior
occurrences of `t` removed, truncated to 3 entries; consequently it never
exceeds 3 entries, keeps `t` at the front, preserves the relative order of
the surviving entries, stays duplicate-free, re-adding a present token
does not grow the list, and a 4th distinct token evicts the oldest. -/
theorem c5_recents_invariants (t : String) (prev : List String) :
    updateRecents t prev = (t :: prev.filter (fun v => v != t)).take 3 ∧
    (updateRecents t prev).length ≤ 3 ∧
    (updateRecents t prev).head? = some t ∧
    ((updateRecents t prev).drop 1).Sublist prev ∧
    (prev.Nodup → (updateRecents t prev).Nodup) ∧
    (t ∈ prev → prev.Nodup → prev.length ≤ 3 → (updateRecents t prev).length = prev.length) ∧
    (t ∉ prev → prev.length = 3 → updateRecents t prev = t :: prev.take 2) := by
  refine ⟨rfl, ?_, ?_, ?_, ?_, ?_, ?_⟩
  · simp only [updateRecents, List.length_take]
    omega
  · simp [updateRecents, List.take_succ_cons]
  · simp only [updateRecents, List.take_succ_cons, List.drop_succ_cons, List.drop_zero]
    exact (List.take_sublist _ _).trans (List.filter_sublist _)
  · intro hd
    have hmem : t ∉ prev.filter (fun v => v != t) := by
      intro hc
      have := List.of_mem_filter hc
      simp at this
    have : (t :: prev.filter (fun v => v != t)).Nodup :=
      List.nodup_cons.mpr ⟨hmem, hd.filter _⟩
    exact this.sublist (List.take_sublist _ _)
  · intro hm hd hlen
    have hef : prev.filter (fun v => v != t) = prev.erase t := (hd.erase_eq_filter t).symm
    have hlen1 : (prev.filter (fun v => v != t)).length = prev.length - 1 := by
      rw [hef]; exact List.length_erase_of_mem hm
    have hpos : 0 < prev.length := List.length_pos.mpr (List.ne_nil_of_mem hm)
    simp only [updateRecents, List.length_take, List.length_cons, hlen1]
    omega
  · intro hnm hlen
    have hfe : prev.filter (fun v => v != t) = prev :=
      List.filter_eq_self.mpr (fun a ha => bne_iff_ne.mpr (fun e => hnm (e ▸ ha)))
    rw [updateRecents, hfe, List.take_succ_cons]

/-- Witness for C5: re-adding a present token keeps the length at 3, and a
4th distinct token evicts the oldest entry. -/
theorem c5_recents_invariants_witness :
    (updateRecents "1weeks" ["2months", "1weeks", "3years"]).length = 3 ∧
    updateRecents "4years" ["1weeks", "2months", "3years"] =
      "4years" :: ["1weeks", "2months", "3years"].take 2 := by
  constructor
  · have h := (c5_recents_invariants "1weeks" ["2months", "1weeks", "3years"]).2.2.2.2.2.1
      (by decide) (by decide) (by decide)
    simpa using h
  · exact (c5_recents_invariants "4years" ["1weeks", "2months", "3years"]).2.2.2.2.2.2
      (by decide) (by decide)

/- ### C6 helper lemmas -/

theorem isSlugKeep_ne_hyphen {c : Char} (h : isSlugKeep c = true) : c ≠ '-' := by
  intro e; subst e; revert h; decide

theorem collapseRuns_cons_keep (d : Char) (r : List Char) (hd : isSlugKeep d = true) :
    collapseRuns (d :: r) = d :: collapseRuns r := by
  cases r with
  | nil => simp [collapseRuns, hd]
  | cons e r' => simp [collapseRuns, hd]

theorem collapseRuns_subset (l : List Char) :
    ∀ c ∈ collapseRuns l, c = '-' ∨ isSlugKeep c = true := by
  induction l with
  | nil => simp [collapseRuns]
  | cons c l ih =>
    cases l with
    | nil =>
      by_cases hc : isSlugKeep c = true <;> simp [collapseRuns, hc]
    | cons d r =>
      by_cases hc : isSlugKeep c = true
      · rw [collapseRuns_cons_keep c _ hc]
        intro x hx
        rcases List.mem_cons.1 hx with h | h
        · subst h; exact Or.inr hc
        · exact ih x h
      · have hc' : isSlugKeep c = false := by simpa using hc
        by_cases hd : isSlugKeep d = true
        · rw [show collapseRuns (c :: d :: r) = '-' :: collapseRuns (d :: r) from by
            simp [collapseRuns, hc', hd]]
          intro x hx
          rcases List.mem_cons.1 hx with h | h
          · subst h; exact Or.inl rfl
          · exact ih x h
        · have hd' : isSlugKeep d = false := by simpa using hd
          rw [show collapseRuns (c :: d :: r) = collapseRuns (d :: r) from by
            simp [collapseRuns, hc', hd']]
          exact ih

theorem collapseRuns_head_bad (r : List Char) :
    ∀ d, isSlugKeep d = false → (collapseRuns (d :: r)).head? = some '-' := by
  induction r with
  | nil => intro d hd; simp [collapseRuns, hd]
  | cons e r' ih =>
    intro d hd
    by_cases he : isSlugKeep e = true
    · simp [collapseRuns, hd, he]
    · have he' : isSlugKeep e = false := by simpa using he
      rw [show collapseRuns (d :: e :: r') = collapseRuns (e :: r') from by
        simp [collapseRuns, hd, he']]
      exact ih e he'

theorem hasPair_tail (a b c : Char) (l : List Char) (h : hasPair a b (c :: l) = false) :
    hasPair a b l = false := by
  cases l with
  | nil => rfl
  | cons d r =>
    have h' : ((decide (c = a) && decide (d = b)) || hasPair a b (d :: r)) = false := h
    exact (Bool.or_eq_false_iff.mp h').2

theorem collapseRuns_no_double (l : List Char) : hasPair '-' '-' (collapseRuns l) = false := by
  induction l with
  | nil => rfl
  | cons c l ih =>
    cases l with
    | nil =>
      by_cases hc : isSlugKeep c = true <;> simp [collapseRuns, hc, hasPair]
    | cons d r =>
      by_cases hc : isSlugKeep c = true
      · rw [collapseRuns_cons_keep c _ hc]
        cases hX : collapseRuns (d :: r) with
        | nil => rfl
        | cons x xs =>
          have hcne : decide (c = '-') = false :=
            decide_eq_false (isSlugKeep_ne_hyphen hc)
          have : hasPair '-' '-' (c :: x :: xs) =
              ((decide (c = '-') && decide (x = '-')) || hasPair '-' '-' (x :: xs)) := rfl
          rw [this, hcne, Bool.false_and, Bool.false_or, ← hX]
          exact ih
      · have hc' : isSlugKeep c = false := by simpa using hc
        by_cases hd : isSlugKeep d = true
        · rw [show collapseRuns (c :: d :: r) = '-' :: collapseRuns (d :: r) from by
            simp [collapseRuns, hc', hd]]
          rw [collapseRuns_cons_keep d _ hd]
          have hdne : decide (d = '-') = false :=
            decide_eq_false (isSlugKeep_ne_hyphen hd)
          have : hasPair '-' '-' ('-' :: d :: collapseRuns r) =
              ((decide ('-' = '-') && decide (d = '-')) || hasPair '-' '-' (d :: collapseRuns r)) := rfl
          rw [this, hdne, Bool.and_false, Bool.false_or, ← collapseRuns_cons_keep d _ hd]
          exact ih
        · have hd' : isSlugKeep d = false := by simpa using hd
          rw [show collapseRuns (c :: d :: r) = collapseRuns (d :: r) from by
            simp [collapseRuns, hc', hd']]
          exact ih

theorem getLast_dropLast_ne (m : List Char) (h : hasPair '-' '-' m = false)
    (hl : m.getLast? = some '-') : (m.dropLast).getLast? ≠ some '-' := by
  induction m with
  | nil => simp
  | cons a l ih =>
    cases l with
    | nil => simp
    | cons b r =>
      cases r with
      | nil =>
        have h' : ((decide (a = '-') && decide (b = '-')) || hasPair '-' '-' [b]) = false := h
        have ha := (Bool.or_eq_false_iff.mp h').1
        have hb : b = '-' := by
          have : (b :: ([] : List Char)).getLast? = some b := rfl
          rw [List.getLast?_cons_cons, this] at hl
          exact Option.some.inj hl
        subst hb
        have ha' : a ≠ '-' := by
          intro e; subst e; simp at ha
        show ([a] : List Char).getLast? ≠ some '-'
        simpa using ha'
      | cons e r' =>
        have htl : hasPair '-' '-' (b :: e :: r') = false := hasPair_tail _ _ _ _ h
        have hl' : (b :: e :: r').getLast? = some '-' := by
          rw [← List.getLast?_cons_cons (l := e :: r') (a := a)]
          exact hl
        have ihr := ih htl hl'
        have e2 : (b :: e :: r').dropLast = b :: (e :: r').dropLast := rfl
        rw [show (a :: b :: e :: r').dropLast = a :: (b :: e :: r').dropLast from rfl, e2,
          List.getLast?_cons_cons, ← e2]
        exact ihr

theorem stripEdges_subset_src (l : List Char) : ∀ c ∈ stripEdges l, c ∈ l := by
  intro c hc
  simp only [stripEdges] at hc
  split at hc
  · split at hc
    · exact (List.tail_sublist l).subset ((List.dropLast_sublist _).subset hc)
    · exact (List.tail_sublist l).subset hc
  · split at hc
    · exact (List.dropLast_sublist _).subset hc
    · exact hc

theorem head_dropLast (m : List Char) : m.dropLast.head? = none ∨ m.dropLast.head? = m.head? := by
  cases m with
  | nil => exact Or.inl rfl
  | cons x xs =>
    cases xs with
    | nil => exact Or.inl rfl
    | cons y ys => exact Or.inr rfl

theorem stripEdges_head_ne (l : List Char) (h : hasPair '-' '-' l = false) :
    (stripEdges l).head? ≠ some '-' := by
  simp only [stripEdges]
  split
  · rename_i hh
    cases l with
    | nil => simp at hh
    | cons a t =>
      have ha : a = '-' := by simpa using hh
      subst ha
      have ht : t.head? ≠ some '-' := by
        cases t with
        | nil => simp
        | cons u t' =>
          have h' : ((decide ('-' = '-') && decide (u = '-')) || hasPair '-' '-' (u :: t')) = false := h
          have h2 := (Bool.or_eq_false_iff.mp h').1
          have hu : u ≠ '-' := by simpa using h2
          simpa using hu
      show (if t.getLast? = some '-' then t.dropLast else t).head? ≠ some '-'
      split
      · rcases head_dropLast t with hd | hd
        · rw [hd]; simp
        · rw [hd]; exact ht
      · exact ht
  · rename_i hh
    split
    · rcases head_dropLast l with hd | hd
      · rw [hd]; simp
      · rw [hd]; exact hh
    · exact hh

theorem stripEdges_getLast_ne (l : List Char) (h : hasPair '-' '-' l = false) :
    (stripEdges l).getLast? ≠ some '-' := by
  simp only [stripEdges]
  split
  · rename_i hh
    have hpl1 : hasPair '-' '-' l.tail = false := by
      cases l with
      | nil => rfl
      | cons a t => exact hasPair_tail _ _ _ _ h
    split
    · rename_i hg
      exact getLast_dropLast_ne _ hpl1 hg
    · rename_i hg; exact hg
  · split
    · rename_i hg
      exact getLast_dropLast_ne _ h hg
    · rename_i hg; exact hg

/- ### C6 -/

/-- C6: for every title, the slug between the fixed `recal-` and `.ics`
parts is obtained by lowercasing, truncating to 30 characters, collapsing
runs outside `[a-z0-9]` to single hyphens and stripping edge hyphens;
consequently it contains no character outside `[a-z0-9-]` and neither
starts nor ends with a hyphen, and "Revisit: My Decision!!" yields
"revisit-my-decision". -/
theorem c6_filename_slug (title : String) :
    (∀ c ∈ (slugify title).data, c = '-' ∨ ('a' ≤ c ∧ c ≤ 'z') ∨ ('0' ≤ c ∧ c ≤ '9')) ∧
    (slugify title).data.head? ≠ some '-' ∧
    (slugify title).data.getLast? ≠ some '-' ∧
    slugify "Revisit: My Decision!!" = "revisit-my-decision" ∧
    downloadFileName ⟨title, "", "1weeks"⟩ = "recal-" ++ slugify title ++ ".ics" := by
  have hdata : (slugify title).data =
      stripEdges (collapseRuns ((title.data.map Char.toLower).take 30)) := rfl
  have hnp := collapseRuns_no_double ((title.data.map Char.toLower).take 30)
  refine ⟨?_, ?_, ?_, ?_, rfl⟩
  · intro c hc
    rw [hdata] at hc
    have hc2 := stripEdges_subset_src _ c hc
    rcases collapseRuns_subset _ c hc2 with h | h
    · exact Or.inl h
    · right
      simpa [isSlugKeep, Bool.or_eq_true, Bool.and_eq_true, decide_eq_true_eq] using h
  · rw [hdata]; exact stripEdges_head_ne _ hnp
  · rw [hdata]; exact stripEdges_getLast_ne _ hnp
  · rfl

/- ### C10 -/

/-- C10 counterexample: on "12.5weeks" the regex matches "12" with groups
("1", "2") — not count 5 and unit "weeks" — so the unit is unrecognized
and resolution falls back to now + 1 week, which differs from now + 5
weeks. -/
theorem c10_unanchored_counterexample :
    findMatch "12.5weeks".data = some (['1'], ['2']) ∧
    (getEventDates 0 ⟨1700000000000⟩ ⟨"t", "c", "12.5weeks"⟩).1 = addWeeks ⟨1700000000000⟩ 1 ∧
    (getEventDates 0 ⟨1700000000000⟩ ⟨"t", "c", "5weeks"⟩).1 = addWeeks ⟨1700000000000⟩ 5 ∧
    addWeeks (⟨1700000000000⟩ : JSDate) 1 ≠ addWeeks ⟨1700000000000⟩ 5 :=
  ⟨rfl, rfl, rfl, by decide⟩

theorem backtrackSplit_isSome (l : List Char) (j : Nat) (h1 : 1 ≤ j)
    (h3 : ((l.drop j).takeWhile isWordChar) ≠ []) :
    ∀ n, j ≤ n → ∃ g, backtrackSplit l n = some g := by
  intro n
  induction n with
  | zero => intro h2; omega
  | succ n ih =>
    intro h2
    by_cases hg : ((l.drop (n + 1)).takeWhile isWordChar).isEmpty = true
    · have hj : j ≤ n := by
        rcases Nat.lt_or_ge j (n + 1) with h | h
        · omega
        · exfalso
          have : j = n + 1 := by omega
          subst this
          exact h3 (List.isEmpty_iff.mp hg)
      obtain ⟨g, hbg⟩ := ih hj
      exact ⟨g, by simp [backtrackSplit, hg, hbg]⟩
    · refine ⟨(l.take (n + 1), (l.drop (n + 1)).takeWhile isWordChar), ?_⟩
      simp [backtrackSplit, hg]

theorem tryMatchAt_isSome (c d : Char) (post : List Char) (hc : isDigitChar c = true)
    (hd : isWordChar d = true) : ∃ g, tryMatchAt (c :: d :: post) = some g := by
  unfold tryMatchAt
  apply backtrackSplit_isSome _ 1 le_rfl
  · show (((c :: d :: post).drop 1).takeWhile isWordChar) ≠ []
    simp [List.takeWhile_cons, hd]
  · show 1 ≤ ((c :: d :: post).takeWhile isDigitChar).length
    simp [List.takeWhile_cons, hc]

theorem findMatch_isSome (c d : Char) (hc : isDigitChar c = true) (hd : isWordChar d = true)
    (pre post : List Char) : ∃ g, findMatch (pre ++ c :: d :: post) = some g := by
  induction pre with
  | nil =>
    obtain ⟨g, hg⟩ := tryMatchAt_isSome c d post hc hd
    exact ⟨g, by simp [findMatch, hg]⟩
  | cons e pre' ih =>
    show ∃ g, findMatch (e :: (pre' ++ c :: d :: post)) = some g
    cases hm : tryMatchAt (e :: (pre' ++ c :: d :: post)) with
    | some g => exact ⟨g, by simp [findMatch, hm]⟩
    | none =>
      obtain ⟨g, hg⟩ := ih
      exact ⟨g, by simp [findMatch, hm, hg]⟩

/-- C10 amended: matching is unanchored, so whenever the token contains a
digit immediately followed by a word character the regex matches and
resolution uses the leftmost match (with the greedy, backtracking
semantics); "x3weeks" resolves to now + 3 weeks, while "12.5weeks" matches
groups ("1", "2") and therefore takes the 1-week fallback. -/
theorem c10_unanchored_amended (td : String) (now : JSDate) (tz : Int)
    (title content : String) :
    ((∃ pre c d post, td.data = pre ++ c :: d :: post ∧
        isDigitChar c = true ∧ isWordChar d = true) →
      ∃ g, findMatch td.data = some g) ∧
    (∀ g1 g2, findMatch td.data = some (g1, g2) →
      getEventDates tz now ⟨title, content, td⟩ =
        ((match (units tz now).find? (fun u : UnitEntry => u.value == String.mk g2) with
          | some u => u.fn (digitsToNat g1)
          | none => addWeeks now 1),
         ⟨(match (units tz now).find? (fun u : UnitEntry => u.value == String.mk g2) with
           | some u => u.fn (digitsToNat g1)
           | none => addWeeks now 1).ms + 30 * 60000⟩)) ∧
    (getEventDates tz now ⟨title, content, "x3weeks"⟩).1 = addWeeks now 3 ∧
    (getEventDates tz now ⟨title, content, "12.5weeks"⟩).1 = addWeeks now 1 := by
  refine ⟨?_, ?_, rfl, rfl⟩
  · rintro ⟨pre, c, d, post, heq, hc, hd⟩
    rw [heq]
    exact findMatch_isSome c d hc hd pre post
  · intro g1 g2 h
    have hp : parseTimeDelay td = (digitsToNat g1, String.mk g2) := by
      unfold parseTimeDelay; rw [h]
    simp only [getEventDates, hp]

/-- Witness for C10 at "x3weeks": a digit followed by a word character in
the middle of the token makes the match succeed, and the token resolves to
now + 3 weeks; "7months" resolves through the matched groups. -/
theorem c10_unanchored_amended_witness :
    (∃ g, findMatch "x3weeks".data = some g) ∧
    (getEventDates 0 ⟨1700000000000⟩ ⟨"t", "c", "x3weeks"⟩).1 = addWeeks ⟨1700000000000⟩ 3 ∧
    getEventDates 0 ⟨1700000000000⟩ ⟨"t", "c", "7months"⟩ =
      (addMonths 0 ⟨1700000000000⟩ 7,
        ⟨(addMonths 0 ⟨1700000000000⟩ 7).ms + 30 * 60000⟩) := by
  refine ⟨?_, ?_, ?_⟩
  · exact (c10_unanchored_amended "x3weeks" ⟨1700000000000⟩ 0 "t" "c").1
      ⟨['x'], '3', 'w', ['e', 'e', 'k', 's'], rfl, rfl, rfl⟩
  · exact (c10_unanchored_amended "x3weeks" ⟨1700000000000⟩ 0 "t" "c").2.2.1
  · exact (c10_unanchored_amended "7months" ⟨1700000000000⟩ 0 "t" "c").2.1
      ['7'] ['m', 'o', 'n', 't', 'h', 's'] rfl

/- ### Serialization pipeline lemmas -/

theorem data_append (s t : String) : (s ++ t).data = s.data ++ t.data := rfl

theorem isDigitChar_spec {c : Char} (h : isDigitChar c = true) : '0' ≤ c ∧ c ≤ '9' := by
  simpa [isDigitChar, Bool.and_eq_true, decide_eq_true_eq] using h

theorem digit_ne {c : Char} (h : isDigitChar c = true) :
    c ≠ '-' ∧ c ≠ ':' ∧ c ≠ '.' ∧ c ≠ 'Z' ∧ c ≠ '\n' ∧ c ≠ '\r' ∧ c ≠ 'T' := by
  obtain ⟨h1, h2⟩ := isDigitChar_spec h
  refine ⟨fun e => ?_, fun e => ?_, fun e => ?_, fun e => ?_, fun e => ?_, fun e => ?_,
    fun e => ?_⟩ <;> subst e <;>
    first
      | exact absurd h1 (by decide)
      | exact absurd h2 (by decide)

theorem civilFromMs_msec_lt (t : Int) : (civilFromMs t).msec < 1000 := by
  show (t.emod 86400000).toNat % 1000 < 1000
  exact Nat.mod_lt _ (by norm_num)

theorem padStart_digits (m k : Nat) :
    ∀ c ∈ (padStart (jsString m) k '0').data, isDigitChar c = true := by
  intro c hc
  rw [padStart_data] at hc
  rcases List.mem_append.1 hc with h | h
  · rw [List.eq_of_mem_replicate h]; decide
  · exact jsString_data_digit m c h

theorem padStart_digits_int (y : Int) (h : 0 ≤ y) (k : Nat) :
    ∀ c ∈ (padStart (jsStringInt y) k '0').data, isDigitChar c = true := by
  rw [jsStringInt_nonneg y h]
  exact padStart_digits _ k

theorem filter_keep_digits (l : List Char) (h : ∀ c ∈ l, isDigitChar c = true) :
    l.filter (fun c => !(c == '-' || c == ':')) = l := by
  apply List.filter_eq_self.mpr
  intro a ha
  have hne := digit_ne (h a ha)
  simp [hne.1, hne.2.1]

theorem filter_keep_digit_append (l rest : List Char) (h : ∀ c ∈ l, isDigitChar c = true) :
    (l ++ rest).filter (fun c => !(c == '-' || c == ':')) =
      l ++ rest.filter (fun c => !(c == '-' || c == ':')) := by
  rw [List.filter_append, filter_keep_digits l h]

theorem removeDot3_cons_ne (c : Char) (l : List Char) (h : c ≠ '.') :
    removeDot3 (c :: l) = c :: removeDot3 l := by
  simp only [removeDot3]
  rw [if_neg (fun hx => h hx.1)]

theorem removeDot3_no_dot_append (l m : List Char) (h : ∀ c ∈ l, c ≠ '.') :
    removeDot3 (l ++ m) = l ++ removeDot3 m := by
  induction l with
  | nil => rfl
  | cons c l' ih =>
    show removeDot3 (c :: (l' ++ m)) = c :: (l' ++ removeDot3 m)
    rw [removeDot3_cons_ne c _ (h c (List.mem_cons_self _ _)),
      ih (fun x hx => h x (List.mem_cons_of_mem _ hx))]

theorem removeDot3_digit_append (l m : List Char) (h : ∀ c ∈ l, isDigitChar c = true) :
    removeDot3 (l ++ m) = l ++ removeDot3 m :=
  removeDot3_no_dot_append l m (fun c hc => (digit_ne (h c hc)).2.2.1)

theorem removeDot3_at_dot (a b c : Char) (r : List Char)
    (ha : isDigitChar a = true) (hb : isDigitChar b = true) (hc : isDigitChar c = true) :
    removeDot3 ('.' :: a :: b :: c :: r) = r := by
  have he : removeDot3 ('.' :: a :: b :: c :: r) =
      if ('.' : Char) = '.' ∧ startsThreeDigits (a :: b :: c :: r) = true then
        (a :: b :: c :: r).drop 3
      else '.' :: removeDot3 (a :: b :: c :: r) := rfl
  rw [he, if_pos ⟨rfl, by simp [startsThreeDigits, ha, hb, hc]⟩]
  rfl

theorem exists_pair_of_len (l : List Char) (h : l.length = 2) : ∃ a b, l = [a, b] := by
  cases l with
  | nil => simp at h
  | cons a l1 =>
    cases l1 with
    | nil => simp at h
    | cons b l2 =>
      cases l2 with
      | nil => exact ⟨a, b, rfl⟩
      | cons c l3 => simp at h

theorem exists_triple_of_len (l : List Char) (h : l.length = 3) : ∃ a b c, l = [a, b, c] := by
  cases l with
  | nil => simp at h
  | cons a l1 =>
    obtain ⟨b, c, hbc⟩ := exists_pair_of_len l1 (by simpa using h)
    exact ⟨a, b, c, by rw [hbc]⟩

theorem exists_quad_of_len (l : List Char) (h : l.length = 4) : ∃ a b c d, l = [a, b, c, d] := by
  cases l with
  | nil => simp at h
  | cons a l1 =>
    obtain ⟨b, c, d, hbc⟩ := exists_triple_of_len l1 (by simpa using h)
    exact ⟨a, b, c, d, by rw [hbc]⟩

theorem padTwo_shape (m : Nat) (hm : m ≤ 99) :
    ∃ a b, (padStart (jsString m) 2 '0').data = [a, b] ∧
      isDigitChar a = true ∧ isDigitChar b = true ∧ digitsToNat [a, b] = m := by
  obtain ⟨hlen, hdig, hval⟩ := padDigits_shape m 2 (by norm_num) (by omega)
  obtain ⟨a, b, hab⟩ := exists_pair_of_len _ hlen
  refine ⟨a, b, hab, ?_, ?_, ?_⟩
  · exact hdig a (hab ▸ List.mem_cons_self _ _)
  · exact hdig b (hab ▸ List.mem_cons_of_mem _ (List.mem_cons_self _ _))
  · rw [← hab]; exact hval

theorem padThree_shape (m : Nat) (hm : m ≤ 999) :
    ∃ a b c, (padStart (jsString m) 3 '0').data = [a, b, c] ∧
      isDigitChar a = true ∧ isDigitChar b = true ∧ isDigitChar c = true ∧
      digitsToNat [a, b, c] = m := by
  obtain ⟨hlen, hdig, hval⟩ := padDigits_shape m 3 (by norm_num) (by omega)
  obtain ⟨a, b, c, hab⟩ := exists_triple_of_len _ hlen
  refine ⟨a, b, c, hab, ?_, ?_, ?_, ?_⟩
  · exact hdig a (hab ▸ List.mem_cons_self _ _)
  · exact hdig b (hab ▸ List.mem_cons_of_mem _ (List.mem_cons_self _ _))
  · exact hdig c (hab ▸ List.mem_cons_of_mem _ (List.mem_cons_of_mem _ (List.mem_cons_self _ _)))
  · rw [← hab]; exact hval

theorem padFour_shape (y : Int) (h0 : 0 ≤ y) (h9 : y ≤ 9999) :
    ∃ a b c d, (padStart (jsStringInt y) 4 '0').data = [a, b, c, d] ∧
      isDigitChar a = true ∧ isDigitChar b = true ∧ isDigitChar c = true ∧
      isDigitChar d = true ∧ digitsToNat [a, b, c, d] = y.toNat := by
  rw [jsStringInt_nonneg y h0]
  obtain ⟨hlen, hdig, hval⟩ := padDigits_shape y.toNat 4 (by norm_num) (by omega)
  obtain ⟨a, b, c, d, hab⟩ := exists_quad_of_len _ hlen
  refine ⟨a, b, c, d, hab, ?_, ?_, ?_, ?_, ?_⟩
  · exact hdig a (hab ▸ List.mem_cons_self _ _)
  · exact hdig b (hab ▸ List.mem_cons_of_mem _ (List.mem_cons_self _ _))
  · exact hdig c (hab ▸ List.mem_cons_of_mem _ (List.mem_cons_of_mem _ (List.mem_cons_self _ _)))
  · exact hdig d (hab ▸ List.mem_cons_of_mem _ (List.mem_cons_of_mem _
      (List.mem_cons_of_mem _ (List.mem_cons_self _ _))))
  · rw [← hab]; exact hval

theorem toISOString_data (d : JSDate) :
    (toISOString d).data =
      (padStart (jsStringInt (utcCivil d).year) 4 '0').data ++
      ('-' :: ((padStart (jsString (utcCivil d).month) 2 '0').data ++
      ('-' :: ((padStart (jsString (utcCivil d).day) 2 '0').data ++
      ('T' :: ((padStart (jsString (utcCivil d).hour) 2 '0').data ++
      (':' :: ((padStart (jsString (utcCivil d).minute) 2 '0').data ++
      (':' :: ((padStart (jsString (utcCivil d).second) 2 '0').data ++
      ('.' :: ((padStart (jsString (utcCivil d).msec) 3 '0').data ++
      ['Z'])))))))))))) := by
  simp only [toISOString, data_append, List.append_assoc,
    show ("-" : String).data = ['-'] from rfl,
    show (":" : String).data = [':'] from rfl,
    show ("T" : String).data = ['T'] from rfl,
    show ("." : String).data = ['.'] from rfl,
    show ("Z" : String).data = ['Z'] from rfl,
    List.singleton_append, List.cons_append, List.nil_append]

theorem specBasicZ_data (c : Civil) :
    (specBasic c ++ "Z").data =
      (padStart (jsStringInt c.year) 4 '0').data ++
      ((padStart (jsString c.month) 2 '0').data ++
      ((padStart (jsString c.day) 2 '0').data ++
      ('T' :: ((padStart (jsString c.hour) 2 '0').data ++
      ((padStart (jsString c.minute) 2 '0').data ++
      ((padStart (jsString c.second) 2 '0').data ++
      ['Z'])))))) := by
  simp only [specBasic, data_append, List.append_assoc,
    show ("T" : String).data = ['T'] from rfl,
    show ("Z" : String).data = ['Z'] from rfl,
    List.singleton_append, List.cons_append, List.nil_append]

/-- The compacted ISO pipeline (`replace(/[-:]/g, "").replace(/\.\d{3}/, "")`
on `toISOString`) produces exactly the spec's UTC basic format with a
trailing `Z` and the milliseconds stripped. -/
theorem isoCompact_eq (d : JSDate) (hy0 : 0 ≤ (utcCivil d).year) :
    isoCompact d = specBasic (utcCivil d) ++ "Z" := by
  apply String.ext
  obtain ⟨m1, m2, m3, hms, hm1, hm2, hm3, _⟩ :=
    padThree_shape (utcCivil d).msec
      (by exact Nat.lt_succ_iff.mp (civilFromMs_msec_lt d.ms))
  rw [show (isoCompact d) =
    String.mk (removeDot3 (stripDashColon (toISOString d)).data) from rfl]
  rw [show ∀ l : List Char, (String.mk l).data = l from fun _ => rfl]
  rw [show (stripDashColon (toISOString d)) =
    String.mk ((toISOString d).data.filter (fun c => !(c == '-' || c == ':'))) from rfl]
  rw [show ∀ l : List Char, (String.mk l).data = l from fun _ => rfl]
  rw [toISOString_data, specBasicZ_data]
  rw [filter_keep_digit_append _ _ (padStart_digits_int _ hy0 4)]
  rw [List.filter_cons_of_neg (by decide)]
  rw [filter_keep_digit_append _ _ (padStart_digits _ 2)]
  rw [List.filter_cons_of_neg (by decide)]
  rw [filter_keep_digit_append _ _ (padStart_digits _ 2)]
  rw [List.filter_cons_of_pos (by rfl)]
  rw [filter_keep_digit_append _ _ (padStart_digits _ 2)]
  rw [List.filter_cons_of_neg (by decide)]
  rw [filter_keep_digit_append _ _ (padStart_digits _ 2)]
  rw [List.filter_cons_of_neg (by decide)]
  rw [filter_keep_digit_append _ _ (padStart_digits _ 2)]
  rw [List.filter_cons_of_pos (by rfl)]
  rw [filter_keep_digit_append _ _ (padStart_digits _ 3)]
  rw [show List.filter (fun c => !(c == '-' || c == ':')) ['Z'] = ['Z'] from rfl]
  rw [removeDot3_digit_append _ _ (padStart_digits_int _ hy0 4)]
  rw [removeDot3_digit_append _ _ (padStart_digits _ 2)]
  rw [removeDot3_digit_append _ _ (padStart_digits _ 2)]
  rw [removeDot3_cons_ne 'T' _ (by decide)]
  rw [removeDot3_digit_append _ _ (padStart_digits _ 2)]
  rw [removeDot3_digit_append _ _ (padStart_digits _ 2)]
  rw [removeDot3_digit_append _ _ (padStart_digits _ 2)]
  rw [hms]
  rw [show ([m1, m2, m3] ++ ['Z'] : List Char) = m1 :: m2 :: m3 :: ['Z'] from rfl]
  rw [removeDot3_at_dot m1 m2 m3 ['Z'] hm1 hm2 hm3]

theorem specBasic_data (c : Civil) :
    (specBasic c).data =
      (padStart (jsStringInt c.year) 4 '0').data ++
      ((padStart (jsString c.month) 2 '0').data ++
      ((padStart (jsString c.day) 2 '0').data ++
      ('T' :: ((padStart (jsString c.hour) 2 '0').data ++
      ((padStart (jsString c.minute) 2 '0').data ++
      (padStart (jsString c.second) 2 '0').data))))) := by
  simp only [specBasic, data_append, List.append_assoc,
    show ("T" : String).data = ['T'] from rfl,
    List.singleton_append, List.cons_append, List.nil_append]

theorem specBasic_chars (c : Civil) (hy : 0 ≤ c.year) :
    ∀ ch ∈ (specBasic c).data, isDigitChar ch = true ∨ ch = 'T' := by
  intro ch hch
  rw [specBasic_data] at hch
  simp only [List.mem_append, List.mem_cons] at hch
  rcases hch with h | h | h | h | h | h | h
  · exact Or.inl (padStart_digits_int _ hy 4 ch h)
  · exact Or.inl (padStart_digits _ 2 ch h)
  · exact Or.inl (padStart_digits _ 2 ch h)
  · exact Or.inr h
  · exact Or.inl (padStart_digits _ 2 ch h)
  · exact Or.inl (padStart_digits _ 2 ch h)
  · exact Or.inl (padStart_digits _ 2 ch h)

/- ### C3 -/

/-- C3: in the generated document, `DTSTART`/`DTEND` are serialized as
floating local time in basic format `YYYYMMDDTHHMMSS` from the local
wall-clock fields (their characters are digits and `T` only — no `Z`, no
offset), while `DTSTAMP` is serialized as absolute UTC in basic format
with a trailing `Z` and the milliseconds stripped. -/
theorem c3_timestamp_conventions (tz : Int) (now : JSDate) (data : FormData)
    (hs1 : 1000 ≤ (localCivil tz (getEventDates tz now data).1).year)
    (hs2 : (localCivil tz (getEventDates tz now data).1).year ≤ 9999)
    (he1 : 1000 ≤ (localCivil tz (getEventDates tz now data).2).year)
    (he2 : (localCivil tz (getEventDates tz now data).2).year ≤ 9999)
    (hn : 0 ≤ (utcCivil now).year) :
    icsLines tz now data = specIcsLines tz now data ∧
    generateICS tz now data = joinStr "\r\n" (specIcsLines tz now data) ∧
    (∀ ch ∈ (specBasic (localCivil tz (getEventDates tz now data).1)).data,
      isDigitChar ch = true ∨ ch = 'T') ∧
    (∀ ch ∈ (specBasic (localCivil tz (getEventDates tz now data).2)).data,
      isDigitChar ch = true ∨ ch = 'T') ∧
    (specBasic (utcCivil now) ++ "Z").data.getLast? = some 'Z' := by
  have h1 : icsLines tz now data = specIcsLines tz now data := by
    unfold icsLines specIcsLines
    rw [isoCompact_eq now hn, formatDate_eq_specBasic _ hs1 hs2,
      formatDate_eq_specBasic _ he1 he2]
    simp only [String.append_assoc]
  refine ⟨h1, by rw [generateICS, h1], specBasic_chars _ (by omega),
    specBasic_chars _ (by omega), ?_⟩
  rw [data_append, show ("Z" : String).data = ['Z'] from rfl, List.getLast?_concat]

/-- Witness for C3 at a concrete timezone, anchor and form record. -/
theorem c3_timestamp_conventions_witness :
    icsLines 60 ⟨1700000000000⟩ ⟨"a", "b", "3weeks"⟩ =
      specIcsLines 60 ⟨1700000000000⟩ ⟨"a", "b", "3weeks"⟩ :=
  (c3_timestamp_conventions 60 ⟨1700000000000⟩ ⟨"a", "b", "3weeks"⟩
    (by decide) (by decide) (by decide) (by decide) (by decide)).1

/- ### URL encoding safety -/

theorem hexUpper_safe (n : Nat) : querySafeChar (hexUpper n) = true := by
  unfold hexUpper
  rcases Nat.lt_or_ge n 16 with h | h
  · interval_cases n <;> decide
  · rw [List.getD_eq_default _ _ (by simpa using h)]
    decide

theorem formEncodeChar_safe (c : Char) : ∀ ch ∈ formEncodeChar c, querySafeChar ch = true := by
  intro ch hch
  unfold formEncodeChar at hch
  split at hch
  · rename_i h
    rw [List.mem_singleton.1 hch]
    simp [querySafeChar, h]
  · split at hch
    · rw [List.mem_singleton.1 hch]; decide
    · rcases List.mem_flatMap.1 hch with ⟨b, _, hb⟩
      unfold percentByte at hb
      rcases List.mem_cons.1 hb with h1 | h1
      · rw [h1]; decide
      · rcases List.mem_cons.1 h1 with h2 | h2
        · rw [h2]; exact hexUpper_safe _
        · rw [List.mem_singleton.1 h2]; exact hexUpper_safe _

theorem formEncode_safe (s : String) : ∀ ch ∈ (formEncode s).data, querySafeChar ch = true := by
  intro ch hch
  rw [show (formEncode s).data = s.data.flatMap formEncodeChar from rfl] at hch
  rcases List.mem_flatMap.1 hch with ⟨c, _, hc⟩
  exact formEncodeChar_safe c ch hc

theorem joinStr_amp_safe (ls : List String)
    (h : ∀ s ∈ ls, ∀ ch ∈ s.data, querySafeChar ch = true) :
    ∀ ch ∈ (joinStr "&" ls).data, querySafeChar ch = true := by
  induction ls with
  | nil => intro ch hch; simp [joinStr] at hch
  | cons s ss ih =>
    cases ss with
    | nil => exact fun ch hch => h s (List.mem_cons_self _ _) ch hch
    | cons s2 ss2 =>
      intro ch hch
      rw [show joinStr "&" (s :: s2 :: ss2) = s ++ "&" ++ joinStr "&" (s2 :: ss2) from rfl,
        data_append, data_append] at hch
      rcases List.mem_append.1 hch with h1 | h1
      · rcases List.mem_append.1 h1 with h2 | h2
        · exact h s (List.mem_cons_self _ _) ch h2
        · rw [show ("&" : String).data = ['&'] from rfl] at h2
          rw [List.mem_singleton.1 h2]; decide
      · exact ih (fun t ht => h t (List.mem_cons_of_mem _ ht)) ch h1

theorem urlSearchParams_safe (ps : List (String × String)) :
    ∀ ch ∈ (urlSearchParams ps).data, querySafeChar ch = true := by
  unfold urlSearchParams
  apply joinStr_amp_safe
  intro s hs ch hch
  rcases List.mem_map.1 hs with ⟨p, _, hp⟩
  subst hp
  rw [data_append, data_append] at hch
  rcases List.mem_append.1 hch with h1 | h1
  · rcases List.mem_append.1 h1 with h2 | h2
    · exact formEncode_safe _ ch h2
    · rw [show ("=" : String).data = ['='] from rfl] at h2
      rw [List.mem_singleton.1 h2]; decide
  · exact formEncode_safe _ ch h1

/- ### C7 -/

/-- C7: the Google Calendar deep link passes `action=TEMPLATE`, the title
and body as separate `text` and `details` parameters, the fixed `trp=false`
transparency flag, and a `dates` parameter made of the two absolute UTC
basic timestamps with trailing `Z`; every character of the query string is
a form-urlencoded-safe character. -/
theorem c7_google_link (tz : Int) (now : JSDate) (data : FormData)
    (h1 : 0 ≤ (utcCivil (getEventDates tz now data).1).year)
    (h2 : 0 ≤ (utcCivil (getEventDates tz now data).2).year) :
    addToGoogleCalendarUrl tz now data =
      "https://calendar.google.com/calendar/render?" ++
        urlSearchParams (specGoogleParams tz now data) ∧
    (∀ ch ∈ (urlSearchParams (specGoogleParams tz now data)).data,
      querySafeChar ch = true) := by
  constructor
  · unfold addToGoogleCalendarUrl specGoogleParams
    rw [isoCompact_eq _ h1, isoCompact_eq _ h2]
  · exact urlSearchParams_safe _

/-- Witness for C7 at a concrete timezone, anchor and form record. -/
theorem c7_google_link_witness :
    addToGoogleCalendarUrl 0 ⟨1700000000000⟩ ⟨"Hello World", "a b", "3weeks"⟩ =
      "https://calendar.google.com/calendar/render?" ++
        urlSearchParams (specGoogleParams 0 ⟨1700000000000⟩ ⟨"Hello World", "a b", "3weeks"⟩) :=
  (c7_google_link 0 ⟨1700000000000⟩ ⟨"Hello World", "a b", "3weeks"⟩
    (by decide) (by decide)).1

/- ### C8 -/

theorem specExtended_data (c : Civil) :
    (specExtended c).data =
      (padStart (jsStringInt c.year) 4 '0').data ++
      ('-' :: ((padStart (jsString c.month) 2 '0').data ++
      ('-' :: ((padStart (jsString c.day) 2 '0').data ++
      ('T' :: ((padStart (jsString c.hour) 2 '0').data ++
      (':' :: ((padStart (jsString c.minute) 2 '0').data ++
      (':' :: (padStart (jsString c.second) 2 '0').data))))))))) := by
  simp only [specExtended, data_append, List.append_assoc,
    show ("-" : String).data = ['-'] from rfl,
    show (":" : String).data = [':'] from rfl,
    show ("T" : String).data = ['T'] from rfl,
    List.singleton_append, List.cons_append, List.nil_append]

theorem specExtended_chars (c : Civil) (hy : 0 ≤ c.year) :
    ∀ ch ∈ (specExtended c).data, ch ≠ 'Z' := by
  intro ch hch
  rw [specExtended_data] at hch
  simp only [List.mem_append, List.mem_cons] at hch
  rcases hch with h | h | h | h | h | h | h | h | h | h | h
  · exact (digit_ne (padStart_digits_int _ hy 4 ch h)).2.2.2.1
  · rw [h]; decide
  · exact (digit_ne (padStart_digits _ 2 ch h)).2.2.2.1
  · rw [h]; decide
  · exact (digit_ne (padStart_digits _ 2 ch h)).2.2.2.1
  · rw [h]; decide
  · exact (digit_ne (padStart_digits _ 2 ch h)).2.2.2.1
  · rw [h]; decide
  · exact (digit_ne (padStart_digits _ 2 ch h)).2.2.2.1
  · rw [h]; decide
  · exact (digit_ne (padStart_digits _ 2 ch h)).2.2.2.1

/-- `toISOString().slice(0, 19)` produces exactly the spec's extended
format `YYYY-MM-DDTHH:MM:SS` when every component prints at its nominal
width. -/
theorem formatOutlookDate_eq (d : JSDate) (h : ValidC (utcCivil d)) :
    formatOutlookDate d = specExtended (utcCivil d) := by
  obtain ⟨hy1, hy9, hmo, hd, hh, hmi, hs⟩ := h
  apply String.ext
  rw [show (formatOutlookDate d) = String.mk ((toISOString d).data.take 19) from rfl]
  rw [show ∀ l : List Char, (String.mk l).data = l from fun _ => rfl]
  rw [toISOString_data, specExtended_data]
  obtain ⟨y1, y2, y3, y4, hY, _, _, _, _, _⟩ := padFour_shape _ (by omega) hy9
  obtain ⟨a1, a2, hMO, _, _, _⟩ := padTwo_shape _ hmo
  obtain ⟨b1, b2, hD, _, _, _⟩ := padTwo_shape _ hd
  obtain ⟨c1, c2, hH, _, _, _⟩ := padTwo_shape _ hh
  obtain ⟨e1, e2, hMI, _, _, _⟩ := padTwo_shape _ hmi
  obtain ⟨f1, f2, hS, _, _, _⟩ := padTwo_shape _ hs
  rw [hY, hMO, hD, hH, hMI, hS]
  rfl

/-- C8: the Outlook deep link passes the provider compose path, the title
and body as separate `subject` and `body` parameters, and start/end as UTC
timestamps truncated to second precision in extended format with no `Z`;
every character of the query string is form-urlencoded-safe. -/
theorem c8_outlook_link (tz : Int) (now : JSDate) (data : FormData)
    (h1 : ValidC (utcCivil (getEventDates tz now data).1))
    (h2 : ValidC (utcCivil (getEventDates tz now data).2)) :
    addToOutlookUrl tz now data =
      "https://outlook.live.com/calendar/deeplink/compose?" ++
        urlSearchParams (specOutlookParams tz now data) ∧
    (∀ ch ∈ (specExtended (utcCivil (getEventDates tz now data).1)).data, ch ≠ 'Z') ∧
    (∀ ch ∈ (specExtended (utcCivil (getEventDates tz now data).2)).data, ch ≠ 'Z') ∧
    (∀ ch ∈ (urlSearchParams (specOutlookParams tz now data)).data,
      querySafeChar ch = true) := by
  refine ⟨?_, specExtended_chars _ (by have := h1.1; omega),
    specExtended_chars _ (by have := h2.1; omega), urlSearchParams_safe _⟩
  unfold addToOutlookUrl specOutlookParams
  rw [formatOutlookDate_eq _ h1, formatOutlookDate_eq _ h2]

/-- Witness for C8 at a concrete timezone, anchor and form record. -/
theorem c8_outlook_link_witness :
    addToOutlookUrl 0 ⟨1700000000000⟩ ⟨"Hi", "x", "1years"⟩ =
      "https://outlook.live.com/calendar/deeplink/compose?" ++
        urlSearchParams (specOutlookParams 0 ⟨1700000000000⟩ ⟨"Hi", "x", "1years"⟩) :=
  (c8_outlook_link 0 ⟨1700000000000⟩ ⟨"Hi", "x", "1years"⟩ (by decide) (by decide)).1

/- ### CRLF join and split -/

theorem joinStr_data (sep : String) (ls : List String) :
    (joinStr sep ls).data = joinData sep.data (ls.map String.data) := by
  induction ls with
  | nil => rfl
  | cons s ss ih =>
    cases ss with
    | nil => rfl
    | cons s2 ss2 =>
      show (s ++ sep ++ joinStr sep (s2 :: ss2)).data = _
      rw [data_append, data_append, ih]
      rfl

theorem hasPair_of_not_memR (a b : Char) (l : List Char) (h : b ∉ l) :
    hasPair a b l = false := by
  induction l with
  | nil => rfl
  | cons c r ih =>
    cases r with
    | nil => rfl
    | cons d r' =>
      show ((decide (c = a) && decide (d = b)) || hasPair a b (d :: r')) = false
      rw [Bool.or_eq_false_iff]
      constructor
      · have hd : d ≠ b := fun e => h (e ▸ List.mem_cons_of_mem _ (List.mem_cons_self _ _))
        rw [decide_eq_false hd, Bool.and_false]
      · exact ih (fun hm => h (List.mem_cons_of_mem _ hm))

theorem hasPair_append (a b : Char) (x y : List Char) (hx : hasPair a b x = false)
    (hy : hasPair a b y = false) (hj : ¬(x.getLast? = some a ∧ y.head? = some b)) :
    hasPair a b (x ++ y) = false := by
  induction x with
  | nil => exact hy
  | cons c x' ih =>
    cases x' with
    | nil =>
      cases y with
      | nil => rfl
      | cons d y' =>
        show ((decide (c = a) && decide (d = b)) || hasPair a b (d :: y')) = false
        rw [Bool.or_eq_false_iff]
        refine ⟨?_, hy⟩
        by_cases hca : c = a
        · have hdb : d ≠ b := by
            intro e
            exact hj ⟨by simp [hca], by simp [e]⟩
          rw [decide_eq_false hdb, Bool.and_false]
        · rw [decide_eq_false hca, Bool.false_and]
    | cons e x'' =>
      have h1 : ((decide (c = a) && decide (e = b)) || hasPair a b (e :: x'')) = false := hx
      obtain ⟨h2, h3⟩ := Bool.or_eq_false_iff.mp h1
      show ((decide (c = a) && decide (e = b)) || hasPair a b ((e :: x'') ++ y)) = false
      rw [Bool.or_eq_false_iff]
      refine ⟨h2, ih h3 ?_⟩
      intro ⟨hl, hh⟩
      exact hj ⟨by rw [List.getLast?_cons_cons]; exact hl, hh⟩

theorem splitCRLF_cons_cons (c d : Char) (r : List Char) :
    splitCRLF (c :: d :: r) =
      if c = '\r' ∧ d = '\n' then [] :: splitCRLF r
      else
        match splitCRLF (d :: r) with
        | [] => [[c]]
        | l :: ls => (c :: l) :: ls := rfl

theorem splitCRLF_single (l : List Char) (h : hasPair '\r' '\n' l = false) :
    splitCRLF l = [l] := by
  induction l with
  | nil => rfl
  | cons c r ih =>
    cases r with
    | nil => rfl
    | cons d r' =>
      have h1 : ((decide (c = '\r') && decide (d = '\n')) || hasPair '\r' '\n' (d :: r')) = false := h
      obtain ⟨h2, h3⟩ := Bool.or_eq_false_iff.mp h1
      have hc : ¬(c = '\r' ∧ d = '\n') := by
        intro ⟨e1, e2⟩
        rw [decide_eq_true e1, decide_eq_true e2] at h2
        simp at h2
      rw [splitCRLF_cons_cons, if_neg hc, ih h3]

theorem splitCRLF_append (l rest : List Char) (h : hasPair '\r' '\n' l = false) :
    splitCRLF (l ++ '\r' :: '\n' :: rest) = l :: splitCRLF rest := by
  induction l with
  | nil =>
    show splitCRLF ('\r' :: '\n' :: rest) = [] :: splitCRLF rest
    rw [splitCRLF_cons_cons, if_pos ⟨rfl, rfl⟩]
  | cons c l' ih =>
    cases l' with
    | nil =>
      show splitCRLF (c :: '\r' :: '\n' :: rest) = [c] :: splitCRLF rest
      rw [splitCRLF_cons_cons, if_neg (fun hx => absurd hx.2 (by decide))]
      rw [show splitCRLF ('\r' :: '\n' :: rest) = [] :: splitCRLF rest from by
        rw [splitCRLF_cons_cons, if_pos ⟨rfl, rfl⟩]]
    | cons d l'' =>
      have h1 : ((decide (c = '\r') && decide (d = '\n')) || hasPair '\r' '\n' (d :: l'')) = false := h
      obtain ⟨h2, h3⟩ := Bool.or_eq_false_iff.mp h1
      have hc : ¬(c = '\r' ∧ d = '\n') := by
        intro ⟨e1, e2⟩
        rw [decide_eq_true e1, decide_eq_true e2] at h2
        simp at h2
      show splitCRLF (c :: d :: (l'' ++ '\r' :: '\n' :: rest)) = (c :: d :: l'') :: splitCRLF rest
      rw [splitCRLF_cons_cons, if_neg hc]
      rw [show (d :: (l'' ++ '\r' :: '\n' :: rest)) = ((d :: l'') ++ '\r' :: '\n' :: rest) from rfl,
        ih h3]

theorem splitCRLF_joinData (ls : List (List Char))
    (h : ∀ l ∈ ls, hasPair '\r' '\n' l = false) (hne : ls ≠ []) :
    splitCRLF (joinData ['\r', '\n'] ls) = ls := by
  induction ls with
  | nil => exact absurd rfl hne
  | cons x ss ih =>
    cases ss with
    | nil => exact splitCRLF_single x (h x (List.mem_cons_self _ _))
    | cons y ss' =>
      have e1 : joinData ['\r', '\n'] (x :: y :: ss') =
          x ++ ('\r' :: '\n' :: joinData ['\r', '\n'] (y :: ss')) := by
        show x ++ ['\r', '\n'] ++ _ = _
        rw [List.append_assoc]
        rfl
      rw [e1, splitCRLF_append _ _ (h x (List.mem_cons_self _ _)),
        ih (fun t ht => h t (List.mem_cons_of_mem _ ht)) (by simp)]

theorem joinData_ne_nil (sep : List Char) (hsep : sep ≠ []) (xs : List (List Char))
    (y : List Char) (hy : y ≠ []) : joinData sep (xs ++ [y]) ≠ [] := by
  cases xs with
  | nil => exact hy
  | cons x xs' =>
    cases hxs : xs' ++ [y] with
    | nil => simp at hxs
    | cons z zs =>
      rw [show (x :: xs') ++ [y] = x :: (xs' ++ [y]) from rfl, hxs]
      show x ++ sep ++ joinData sep (z :: zs) ≠ []
      simp [List.append_eq_nil, hsep]

theorem getLast?_append_right (l1 l2 : List Char) (h : l2 ≠ []) :
    (l1 ++ l2).getLast? = l2.getLast? := by
  rw [List.getLast?_append]
  cases h2 : l2.getLast? with
  | none =>
    exfalso
    apply h
    simpa using h2
  | some a => rfl

theorem joinData_getLast (sep : List Char) (hsep : sep ≠ []) (xs : List (List Char))
    (y : List Char) (hy : y ≠ []) :
    (joinData sep (xs ++ [y])).getLast? = y.getLast? := by
  induction xs with
  | nil => rfl
  | cons x xs' ih =>
    cases hxs : xs' ++ [y] with
    | nil => simp at hxs
    | cons z zs =>
      rw [show (x :: xs') ++ [y] = x :: (xs' ++ [y]) from rfl, hxs]
      show (x ++ sep ++ joinData sep (z :: zs)).getLast? = y.getLast?
      rw [← hxs, getLast?_append_right _ _ (joinData_ne_nil sep hsep xs' y hy)]
      exact ih

theorem endsWithSeq_false_of_getLast (l : List Char) (a b c : Char)
    (h : l.getLast? = some c) (hne : c ≠ b) : endsWithSeq [a, b] l = false := by
  unfold endsWithSeq
  have h1 : l.reverse.head? = some c := by rw [List.head?_reverse]; exact h
  cases hr : l.reverse with
  | nil => rw [hr] at h1; simp at h1
  | cons x t =>
    rw [hr] at h1
    have hx : x = c := by simpa using h1
    subst hx
    show ((b == x) && leadsWith [a] t) = false
    rw [beq_eq_false_iff_ne.mpr (Ne.symm hne), Bool.false_and]

/- ### Character content of the record lines -/

theorem jsStringInt_chars (i : Int) :
    ∀ c ∈ (jsStringInt i).data, isDigitChar c = true ∨ c = '-' := by
  unfold jsStringInt
  split
  · intro c hc
    rw [data_append] at hc
    rcases List.mem_append.1 hc with h | h
    · right; simpa using h
    · exact Or.inl (jsString_data_digit _ c h)
  · exact fun c hc => Or.inl (jsString_data_digit _ c hc)

theorem no_lf_of_chars (l : List Char) (h : ∀ c ∈ l, c ≠ '\n') :
    hasPair '\r' '\n' l = false :=
  hasPair_of_not_memR _ _ l (fun hm => h '\n' hm rfl)

theorem padStart_int_no_lf (y : Int) (k : Nat) :
    ∀ c ∈ (padStart (jsStringInt y) k '0').data, c ≠ '\n' := by
  intro c hc
  rw [padStart_data] at hc
  rcases List.mem_append.1 hc with h | h
  · rw [List.eq_of_mem_replicate h]; decide
  · rcases jsStringInt_chars y c h with h1 | h1
    · exact (digit_ne h1).2.2.2.2.1
    · rw [h1]; decide

theorem padStart_nat_no_lf (m k : Nat) :
    ∀ c ∈ (padStart (jsString m) k '0').data, c ≠ '\n' := by
  intro c hc
  exact (digit_ne (padStart_digits m k c hc)).2.2.2.2.1

theorem toISOString_no_lf (d : JSDate) : ∀ c ∈ (toISOString d).data, c ≠ '\n' := by
  intro c hc
  rw [toISOString_data] at hc
  simp only [List.mem_append, List.mem_cons] at hc
  rcases hc with h | h | h | h | h | h | h | h | h | h | h | h | h | h | h
  · exact padStart_int_no_lf _ 4 c h
  · rw [h]; decide
  · exact padStart_nat_no_lf _ 2 c h
  · rw [h]; decide
  · exact padStart_nat_no_lf _ 2 c h
  · rw [h]; decide
  · exact padStart_nat_no_lf _ 2 c h
  · rw [h]; decide
  · exact padStart_nat_no_lf _ 2 c h
  · rw [h]; decide
  · exact padStart_nat_no_lf _ 2 c h
  · rw [h]; decide
  · exact padStart_nat_no_lf _ 3 c h
  · rw [h]; decide
  · simp at h

theorem removeDot3_subset (l : List Char) : ∀ c ∈ removeDot3 l, c ∈ l := by
  induction l with
  | nil => simp [removeDot3]
  | cons x r ih =>
    intro c hc
    rw [show removeDot3 (x :: r) =
      if x = '.' ∧ startsThreeDigits r = true then r.drop 3 else x :: removeDot3 r from rfl] at hc
    split at hc
    · exact List.mem_cons_of_mem _ (List.drop_subset _ _ hc)
    · rcases List.mem_cons.1 hc with h | h
      · exact h ▸ List.mem_cons_self _ _
      · exact List.mem_cons_of_mem _ (ih c h)

theorem isoCompact_no_lf (d : JSDate) : ∀ c ∈ (isoCompact d).data, c ≠ '\n' := by
  intro c hc
  rw [show isoCompact d =
    String.mk (removeDot3 (stripDashColon (toISOString d)).data) from rfl,
    show ∀ l : List Char, (String.mk l).data = l from fun _ => rfl] at hc
  have h1 := removeDot3_subset _ c hc
  rw [show stripDashColon (toISOString d) =
    String.mk ((toISOString d).data.filter (fun ch => !(ch == '-' || ch == ':'))) from rfl,
    show ∀ l : List Char, (String.mk l).data = l from fun _ => rfl] at h1
  exact toISOString_no_lf d c (List.mem_of_mem_filter h1)

theorem formatDate_no_lf (c : Civil) : ∀ ch ∈ (formatDate c).data, ch ≠ '\n' := by
  intro ch hch
  unfold formatDate at hch
  rw [data_append, data_append, data_append, data_append, data_append, data_append] at hch
  simp only [List.mem_append] at hch
  rcases hch with ((((((h | h) | h) | h) | h) | h) | h)
  · rcases jsStringInt_chars _ ch h with h1 | h1
    · exact (digit_ne h1).2.2.2.2.1
    · rw [h1]; decide
  · exact padStart_nat_no_lf _ 2 ch h
  · exact padStart_nat_no_lf _ 2 ch h
  · simp at h
    subst h
    decide
  · exact padStart_nat_no_lf _ 2 ch h
  · exact padStart_nat_no_lf _ 2 ch h
  · exact padStart_nat_no_lf _ 2 ch h

theorem escapeNewlines_no_lf (l : List Char) : ∀ c ∈ escapeNewlines l, c ≠ '\n' := by
  induction l with
  | nil => simp [escapeNewlines]
  | cons x r ih =>
    intro c hc
    rw [show escapeNewlines (x :: r) =
      if x = '\n' then '\\' :: 'n' :: escapeNewlines r else x :: escapeNewlines r from rfl] at hc
    split at hc
    · rcases List.mem_cons.1 hc with h | h
      · rw [h]; decide
      · rcases List.mem_cons.1 h with h2 | h2
        · rw [h2]; decide
        · exact ih c h2
    · rename_i hx
      rcases List.mem_cons.1 hc with h | h
      · rw [h]; exact hx
      · exact ih c h

theorem fixed_ascii_no_lf (s : String) (hs : ∀ c ∈ s.data, c ≠ '\n')
    (t : List Char) (ht : ∀ c ∈ t, c ≠ '\n') : ∀ c ∈ (s.data ++ t), c ≠ '\n' := by
  intro c hc
  rcases List.mem_append.1 hc with h | h
  · exact hs c h
  · exact ht c h

theorem icsLines_no_crlf (tz : Int) (now : JSDate) (data : FormData)
    (ht : hasPair '\r' '\n' data.title.data = false) :
    ∀ l ∈ icsLines tz now data, hasPair '\r' '\n' l.data = false := by
  intro l hl
  unfold icsLines at hl
  simp only [List.mem_cons, List.not_mem_nil, or_false] at hl
  rcases hl with h | h | h | h | h | h | h | h | h | h | h | h | h | h <;> subst h
  · decide
  · decide
  · decide
  · decide
  · decide
  · decide
  · -- UID line: no LF at all
    apply no_lf_of_chars
    rw [data_append, data_append]
    intro c hc
    rcases List.mem_append.1 hc with h1 | h1
    · rcases List.mem_append.1 h1 with h2 | h2
      · exact (by decide : ∀ x ∈ ("UID:" : String).data, x ≠ '\n') c h2
      · rcases jsStringInt_chars _ c h2 with h3 | h3
        · exact (digit_ne h3).2.2.2.2.1
        · rw [h3]; decide
    · exact (by decide : ∀ x ∈ ("@recal.app" : String).data, x ≠ '\n') c h1
  · -- DTSTAMP line
    apply no_lf_of_chars
    rw [data_append]
    exact fixed_ascii_no_lf _ (by decide) _ (isoCompact_no_lf now)
  · -- DTSTART line
    apply no_lf_of_chars
    rw [data_append]
    exact fixed_ascii_no_lf _ (by decide) _ (formatDate_no_lf _)
  · -- DTEND line
    apply no_lf_of_chars
    rw [data_append]
    exact fixed_ascii_no_lf _ (by decide) _ (formatDate_no_lf _)
  · -- SUMMARY line: title may contain LF but not the CRLF pair
    rw [data_append]
    apply hasPair_append _ _ _ _ (by decide) ht
    intro ⟨h1, _⟩
    rw [show ("SUMMARY:" : String).data.getLast? = some ':' from rfl] at h1
    exact absurd (Option.some.inj h1) (by decide)
  · -- DESCRIPTION line: the escaped body has no LF
    apply no_lf_of_chars
    rw [data_append]
    exact fixed_ascii_no_lf _ (by decide) _ (escapeNewlines_no_lf _)
  · decide
  · decide

/- ### C9 -/

/-- C9 counterexample: the generated document ends with the unterminated
line `END:VCALENDAR`; no CRLF follows the final line. -/
theorem c9_crlf_counterexample :
    endsWithSeq ['\r', '\n'] (generateICS 0 ⟨1700000000000⟩ ⟨"t", "c", "1weeks"⟩).data = false ∧
    endsWithSeq "END:VCALENDAR".data
      (generateICS 0 ⟨1700000000000⟩ ⟨"t", "c", "1weeks"⟩).data = true := by
  constructor
  · rfl
  · rfl

/-- C9 amended: CRLF joins consecutive record lines — splitting the
document on CRLF recovers exactly the 14 record lines, so every line
except the last is terminated by CRLF — but the final line
`END:VCALENDAR` is not followed by CRLF. -/
theorem c9_crlf_amended (tz : Int) (now : JSDate) (data : FormData)
    (ht : hasPair '\r' '\n' data.title.data = false) :
    splitCRLF (generateICS tz now data).data = (icsLines tz now data).map String.data ∧
    endsWithSeq ['\r', '\n'] (generateICS tz now data).data = false := by
  have hdata : (generateICS tz now data).data =
      joinData ['\r', '\n'] ((icsLines tz now data).map String.data) := by
    rw [generateICS, joinStr_data]
  have hl := icsLines_no_crlf tz now data ht
  constructor
  · rw [hdata]
    apply splitCRLF_joinData
    · intro l hlm
      rcases List.mem_map.1 hlm with ⟨s, hs, hmap⟩
      rw [← hmap]
      exact hl s hs
    · simp [icsLines]
  · have hsplit : (icsLines tz now data).map String.data =
        ((icsLines tz now data).map String.data).dropLast ++ ["END:VCALENDAR".data] := by
      unfold icsLines
      rfl
    have hlast : (generateICS tz now data).data.getLast? = some 'R' := by
      rw [hdata, hsplit, joinData_getLast ['\r', '\n'] (by simp) _ _ (by decide)]
      rfl
    exact endsWithSeq_false_of_getLast _ '\r' '\n' 'R' hlast (by decide)

/-- Witness for C9 at a concrete timezone, anchor and form record. -/
theorem c9_crlf_amended_witness :
    splitCRLF (generateICS 0 ⟨1700000000000⟩ ⟨"t", "c", "1weeks"⟩).data =
      (icsLines 0 ⟨1700000000000⟩ ⟨"t", "c", "1weeks"⟩).map String.data ∧
    endsWithSeq ['\r', '\n'] (generateICS 0 ⟨1700000000000⟩ ⟨"t", "c", "1weeks"⟩).data = false :=
  c9_crlf_amended 0 ⟨1700000000000⟩ ⟨"t", "c", "1weeks"⟩ (by decide)

/- ### Round-trip of the newline escape -/

theorem escapeNewlines_eq_nil (r : List Char) : escapeNewlines r = [] ↔ r = [] := by
  cases r with
  | nil => simp [escapeNewlines]
  | cons c r' =>
    rw [show escapeNewlines (c :: r') =
      if c = '\n' then '\\' :: 'n' :: escapeNewlines r' else c :: escapeNewlines r' from rfl]
    split <;> simp

theorem escapeNewlines_head (r : List Char) (x : Char) (hx : x ≠ '\\')
    (h : (escapeNewlines r).head? = some x) : r.head? = some x := by
  cases r with
  | nil => simp [escapeNewlines] at h
  | cons c r' =>
    rw [show escapeNewlines (c :: r') =
      if c = '\n' then '\\' :: 'n' :: escapeNewlines r' else c :: escapeNewlines r' from rfl] at h
    split at h
    · rename_i hc
      exfalso
      apply hx
      have : ('\\' : Char) = x := by simpa using h
      exact this.symm
    · simpa using h

theorem unescape_escape (b : List Char) (h : hasPair '\\' 'n' b = false) :
    unescapeNewlines (escapeNewlines b) = b := by
  induction b with
  | nil => rfl
  | cons c r ih =>
    by_cases hc : c = '\n'
    · subst hc
      rw [show escapeNewlines ('\n' :: r) = '\\' :: 'n' :: escapeNewlines r from by
        rw [show escapeNewlines ('\n' :: r) =
          if ('\n' : Char) = '\n' then '\\' :: 'n' :: escapeNewlines r
          else '\n' :: escapeNewlines r from rfl, if_pos rfl]]
      rw [show unescapeNewlines ('\\' :: 'n' :: escapeNewlines r) =
        if ('\\' : Char) = '\\' ∧ ('n' : Char) = 'n' then '\n' :: unescapeNewlines (escapeNewlines r)
        else '\\' :: unescapeNewlines ('n' :: escapeNewlines r) from rfl]
      rw [if_pos ⟨rfl, rfl⟩, ih (hasPair_tail _ _ _ _ h)]
    · rw [show escapeNewlines (c :: r) = c :: escapeNewlines r from by
        rw [show escapeNewlines (c :: r) =
          if c = '\n' then '\\' :: 'n' :: escapeNewlines r
          else c :: escapeNewlines r from rfl, if_neg hc]]
      cases hE : escapeNewlines r with
      | nil =>
        have hr : r = [] := (escapeNewlines_eq_nil r).mp hE
        subst hr
        rfl
      | cons d X =>
        rw [show unescapeNewlines (c :: d :: X) =
          if c = '\\' ∧ d = 'n' then '\n' :: unescapeNewlines X
          else c :: unescapeNewlines (d :: X) from rfl]
        have hnot : ¬(c = '\\' ∧ d = 'n') := by
          intro ⟨e1, e2⟩
          subst e1
          subst e2
          have hh : r.head? = some 'n' :=
            escapeNewlines_head r 'n' (by decide) (by rw [hE]; rfl)
          cases r with
          | nil => simp at hh
          | cons y r' =>
            have hy : y = 'n' := by simpa using hh
            subst hy
            have hcontr : ((decide (('\\' : Char) = '\\') && decide (('n' : Char) = 'n')) ||
                hasPair '\\' 'n' ('n' :: r')) = false := h
            simp at hcontr
        rw [if_neg hnot, ← hE, ih (hasPair_tail _ _ _ _ h)]

/- ### Round-trip of the basic time format -/

theorem parseBasicTime_specBasic (c : Civil) (h : ValidC c) :
    parseBasicTime (specBasic c).data = some c.ymdhms := by
  obtain ⟨hy1, hy9, hmo, hdy, hhr, hmi, hsc⟩ := h
  obtain ⟨y1, y2, y3, y4, hY, d1, d2, d3, d4, hv⟩ := padFour_shape c.year (by omega) hy9
  obtain ⟨a1, a2, hMO, da1, da2, va⟩ := padTwo_shape c.month hmo
  obtain ⟨b1, b2, hD, db1, db2, vb⟩ := padTwo_shape c.day hdy
  obtain ⟨e1, e2, hH, de1, de2, ve⟩ := padTwo_shape c.hour hhr
  obtain ⟨f1, f2, hMI, df1, df2, vf⟩ := padTwo_shape c.minute hmi
  obtain ⟨g1, g2, hS, dg1, dg2, vg⟩ := padTwo_shape c.second hsc
  rw [specBasic_data, hY, hMO, hD, hH, hMI, hS]
  rw [show (([y1, y2, y3, y4] : List Char) ++ ([a1, a2] ++ ([b1, b2] ++
    ('T' :: ([e1, e2] ++ ([f1, f2] ++ [g1, g2])))))) =
    [y1, y2, y3, y4, a1, a2, b1, b2, 'T', e1, e2, f1, f2, g1, g2] from rfl]
  rw [show parseBasicTime [y1, y2, y3, y4, a1, a2, b1, b2, 'T', e1, e2, f1, f2, g1, g2] =
    if ('T' : Char) = 'T' ∧
        ([y1, y2, y3, y4, a1, a2, b1, b2, e1, e2, f1, f2, g1, g2].all isDigitChar) = true then
      some ((digitsToNat [y1, y2, y3, y4] : Int), digitsToNat [a1, a2], digitsToNat [b1, b2],
        digitsToNat [e1, e2], digitsToNat [f1, f2], digitsToNat [g1, g2])
    else none from rfl]
  rw [if_pos ⟨rfl, by
    simp [List.all_cons, d1, d2, d3, d4, da1, da2, db1, db2, de1, de2, df1, df2, dg1, dg2]⟩]
  rw [hv, va, vb, ve, vf, vg]
  rw [show ((c.year.toNat : Int), c.month, c.day, c.hour, c.minute, c.second) = c.ymdhms from by
    unfold Civil.ymdhms
    rw [Int.toNat_of_nonneg (by omega : (0 : Int) ≤ c.year)]]

/- ### C4 -/

/-- C4 counterexample: a body consisting of the two characters backslash
and `n` is serialized unchanged, so the reader restores it to a newline
and does not recover the original body. -/
theorem c4_roundtrip_counterexample :
    parsedDescription (generateICS 0 ⟨1700000000000⟩ ⟨"t", "\\n", "1weeks"⟩) = some "\n" ∧
    ("\n" : String) ≠ "\\n" :=
  ⟨rfl, by decide⟩

/-- C4 amended: for every title without a CRLF pair and every body without
a backslash-`n` pair, parsing the generated document recovers the title
from `SUMMARY`, the body from `DESCRIPTION` with each escaped newline
restored, and the start/end instants bit-exact in their second-precision
local-time representation from `DTSTART`/`DTEND`; the only body
transformation is the newline escape. -/
theorem c4_roundtrip_amended (tz : Int) (now : JSDate) (data : FormData)
    (ht : hasPair '\r' '\n' data.title.data = false)
    (hb : hasPair '\\' 'n' data.content.data = false)
    (hs : ValidC (localCivil tz (getEventDates tz now data).1))
    (he : ValidC (localCivil tz (getEventDates tz now data).2)) :
    parsedSummary (generateICS tz now data) = some data.title ∧
    parsedDescription (generateICS tz now data) = some data.content ∧
    parsedDtstart (generateICS tz now data) =
      some (localCivil tz (getEventDates tz now data).1).ymdhms ∧
    parsedDtend (generateICS tz now data) =
      some (localCivil tz (getEventDates tz now data).2).ymdhms := by
  have hdata : (generateICS tz now data).data =
      joinData ['\r', '\n'] ((icsLines tz now data).map String.data) := by
    rw [generateICS, joinStr_data]
  have hsplit : splitCRLF (generateICS tz now data).data =
      (icsLines tz now data).map String.data := by
    rw [hdata]
    apply splitCRLF_joinData
    · intro l hlm
      rcases List.mem_map.1 hlm with ⟨s, hsm, hmap⟩
      rw [← hmap]
      exact icsLines_no_crlf tz now data ht s hsm
    · simp [icsLines]
  refine ⟨?_, ?_, ?_, ?_⟩
  · unfold parsedSummary fieldOf
    rw [hsplit]
    rfl
  · unfold parsedDescription fieldOf
    rw [hsplit]
    show some (String.mk (unescapeNewlines (escapeNewlines data.content.data))) =
      some data.content
    rw [unescape_escape _ hb]
  · unfold parsedDtstart fieldOf
    rw [hsplit]
    show parseBasicTime (formatDate (localCivil tz (getEventDates tz now data).1)).data =
      some (localCivil tz (getEventDates tz now data).1).ymdhms
    rw [formatDate_eq_specBasic _ hs.1 hs.2.1]
    exact parseBasicTime_specBasic _ hs
  · unfold parsedDtend fieldOf
    rw [hsplit]
    show parseBasicTime (formatDate (localCivil tz (getEventDates tz now data).2)).data =
      some (localCivil tz (getEventDates tz now data).2).ymdhms
    rw [formatDate_eq_specBasic _ he.1 he.2.1]
    exact parseBasicTime_specBasic _ he

/-- Witness for C4 at a concrete timezone, anchor and form record (title
with a colon, body with a newline). -/
theorem c4_roundtrip_amended_witness :
    parsedSummary (generateICS 60 ⟨1700000000000⟩ ⟨"He:llo", "a\nb", "3weeks"⟩) =
      some "He:llo" ∧
    parsedDescription (generateICS 60 ⟨1700000000000⟩ ⟨"He:llo", "a\nb", "3weeks"⟩) =
      some "a\nb" ∧
    parsedDtstart (generateICS 60 ⟨1700000000000⟩ ⟨"He:llo", "a\nb", "3weeks"⟩) =
      some (localCivil 60 (getEventDates 60 ⟨1700000000000⟩
        ⟨"He:llo", "a\nb", "3weeks"⟩).1).ymdhms ∧
    parsedDtend (generateICS 60 ⟨1700000000000⟩ ⟨"He:llo", "a\nb", "3weeks"⟩) =
      some (localCivil 60 (getEventDates 60 ⟨1700000000000⟩
        ⟨"He:llo", "a\nb", "3weeks"⟩).2).ymdhms :=
  c4_roundtrip_amended 60 ⟨1700000000000⟩ ⟨"He:llo", "a\nb", "3weeks"⟩
    (by decide) (by decide) (by decide) (by decide)

end ReCal
